import Mathlib

/-!
# Verification of the rosetta CDC hub's DLQ / retry / destination-wrapper logic

Shallow embedding of the Rust sources:
  * `src/dlq/store.rs`          (`DlqStore.push` / `DlqStore.pop_batch`, metadata counts)
  * `src/dlq/serialization.rs`  (`Event` ↔ `SerializableEvent` conversions)
  * `src/dlq/retry.rs`          (`RetryManager`, `is_connection_error`)
  * `src/destination_enum.rs`   (`DestinationWithDlq::write_events`, `set_error_state`,
                                 `start_recovery_loop` single-flight latch)
  * `src/dlq/wrapper.rs`        (`DlqDestinationWrapper::set_error_state`)
  * `src/snowflake/client.rs`   (`SnowpipeClient::open_channel` / `insert_rows`)
  * `src/snowflake/destination.rs` and `src/postgres/destination.rs` (`write_events`
                                 sync-rule resolution and skip paths)

Modelling conventions, used throughout:
  * fjall keyspaces are ordered byte-keyed maps; we model a keyspace as an
    association list `List (Key × V)` kept in ascending key order, with keys as
    `List Char` (fjall compares raw bytes; all keys here are produced by `format!`).
  * The external `etl::types` data model (`Event`, `Cell`, ...) is not part of this
    repository's `src/`; it is modelled from the spec's §3 data model.  Payloads of
    cells whose Rust serialisation goes through `to_string`/`parse` round trips of
    external crates (numeric, uuid, date, time, timestamps) are modelled by their
    canonical textual form, under which `to_string` and a successful `parse` are
    identities; `f32`/`f64` payloads are carried as opaque bit patterns, and
    `serde_json::Value` payloads as their rendered text, since the Rust code moves
    them structurally without inspecting them.
  * Metadata counter values are ASCII decimal renderings of `usize`; the code writes
    `count.to_string()` and reads with `parse().unwrap_or(0)`.  We carry the `Nat`
    itself, treating the decimal encode/parse pair of the Rust standard library as
    the identity it is on the values the store writes.
  * Async effects (SQL `UPDATE`s, HTTP calls, spawned tasks) are returned as
    explicit effect records, and nondeterministic inputs (clock, uuid, the inner
    destination's outcome, HTTP responses) are taken as parameters.
-/

namespace Rosetta

/-! ## Ordered byte-keyed store (model of a fjall keyspace) -/

/-- A fjall key: raw bytes, here the characters of the `format!`ed Rust string. -/
abbrev Key := List Char

/-- Strict lexicographic order on keys, as fjall orders raw byte keys. -/
def keyLt : Key → Key → Bool
  | [], [] => false
  | [], _ :: _ => true
  | _ :: _, [] => false
  | a :: as, b :: bs =>
    if a < b then true
    else if b < a then false
    else keyLt as bs

/-- `keyStartsWith k p` holds when `p` is a prefix of `k` (fjall prefix iteration). -/
def keyStartsWith : Key → Key → Bool
  | _, [] => true
  | [], _ :: _ => false
  | c :: k, q :: p => c == q && keyStartsWith k p

/-- Keyspace lookup (`Keyspace::get`). -/
def kvFind? {V : Type} : List (Key × V) → Key → Option V
  | [], _ => none
  | (k0, v0) :: t, k => if k = k0 then some v0 else kvFind? t k

/-- Keyspace upsert (`Keyspace::insert`): replaces an existing key in place,
otherwise inserts at the ordered position. -/
def kvInsert {V : Type} (k : Key) (v : V) : List (Key × V) → List (Key × V)
  | [] => [(k, v)]
  | (k0, v0) :: t =>
    if k = k0 then (k, v) :: t
    else if keyLt k k0 then (k, v) :: (k0, v0) :: t
    else (k0, v0) :: kvInsert k v t

/-- Keyspace delete (`Keyspace::remove`). -/
def kvRemove {V : Type} (k : Key) (l : List (Key × V)) : List (Key × V) :=
  l.filter (fun kv => ¬(kv.1 = k))

/-- Prefix scan (`Keyspace::prefix`): entries whose key begins with `p`, in the
store's (key) order. -/
def kvScan {V : Type} (l : List (Key × V)) (p : Key) : List (Key × V) :=
  l.filter (fun kv => keyStartsWith kv.1 p)

/-! ## The CDC event data model (`etl::types`, modelled from spec §3) -/

/-- `TableId`: the u32 OID-like table identity; `Display` renders the number. -/
abbrev TableId := Nat

/-- Homogeneous arrays with per-element nullability (`etl::types::ArrayCell`).
The serialisation layer of this repository handles the first eleven variants and
collapses the rest (`Time`, `Timestamp`, `Json`, `Bytes` element arrays) through
its catch-all arms. -/
inductive ArrayCell where
  | bools (v : List (Option Bool))
  | i16s (v : List (Option Int))
  | i32s (v : List (Option Int))
  | i64s (v : List (Option Int))
  | f32s (v : List (Option Nat))
  | f64s (v : List (Option Nat))
  | strs (v : List (Option String))
  | numerics (v : List (Option String))
  | dates (v : List (Option String))
  | timestamptzs (v : List (Option String))
  | uuids (v : List (Option String))
  | times (v : List (Option String))
  | timestamps (v : List (Option String))
  | jsons (v : List (Option String))
  | bytess (v : List (List Nat))
  deriving DecidableEq, Repr

/-- A single column value (`etl::types::Cell`, spec §3). -/
inductive Cell where
  | null
  | bool (v : Bool)
  | string (v : String)
  | i16 (v : Int)
  | i32 (v : Int)
  | i64 (v : Int)
  | f32 (v : Nat)
  | f64 (v : Nat)
  | bytes (v : List Nat)
  | json (v : String)
  | numeric (v : String)
  | uuid (v : String)
  | date (v : String)
  | time (v : String)
  | timestamp (v : String)
  | timestamptz (v : String)
  | array (v : ArrayCell)
  deriving DecidableEq, Repr

/-- `etl::types::TableRow`: ordered cells by source ordinal position. -/
abbrev TableRow := List Cell

/-- `etl::types::Event` (spec §3): the tagged CDC value.  `Insert`/`Update`/`Delete`
carry LSNs that the DLQ round trip zeroes; `Begin`/`Commit` carry transactional
metadata. -/
inductive Event where
  | begin (startLsn commitLsn : Nat) (timestamp : Int) (xid : Nat)
  | commit (startLsn commitLsn endLsn : Nat) (flags : Int) (timestamp : Int)
  | insert (tableId : TableId) (tableRow : TableRow) (startLsn commitLsn : Nat)
  | update (tableId : TableId) (tableRow : TableRow)
      (oldTableRow : Option (Bool × TableRow)) (startLsn commitLsn : Nat)
  | delete (tableId : TableId) (oldTableRow : Option (Bool × TableRow))
      (startLsn commitLsn : Nat)
  | relation (info : String)
  | unsupported
  deriving DecidableEq, Repr

/-! ## `src/dlq/serialization.rs` -/

/-- `SerializableArrayCell` of `src/dlq/serialization.rs`. -/
inductive SerializableArrayCell where
  | bools (v : List (Option Bool))
  | i16s (v : List (Option Int))
  | i32s (v : List (Option Int))
  | i64s (v : List (Option Int))
  | f32s (v : List (Option Nat))
  | f64s (v : List (Option Nat))
  | strs (v : List (Option String))
  | numerics (v : List (Option String))
  | dates (v : List (Option String))
  | timestamptzs (v : List (Option String))
  | uuids (v : List (Option String))
  | unknown (debug : String)
  deriving DecidableEq, Repr

/-- `SerializableCell` of `src/dlq/serialization.rs`. -/
inductive SerializableCell where
  | null
  | bool (v : Bool)
  | string (v : String)
  | i16 (v : Int)
  | i32 (v : Int)
  | i64 (v : Int)
  | f32 (v : Nat)
  | f64 (v : Nat)
  | bytes (v : List Nat)
  | json (v : String)
  | numeric (v : String)
  | uuid (v : String)
  | array (v : SerializableArrayCell)
  | date (v : String)
  | time (v : String)
  | timestamp (v : String)
  | timestamptz (v : String)
  deriving DecidableEq, Repr

/-- `SerializableEvent` of `src/dlq/serialization.rs`.  Note `Update` has no
old-row field, and `Begin`/`Commit` carry no payload. -/
inductive SerializableEvent where
  | insert (tableId : TableId) (tableRow : List SerializableCell)
  | update (tableId : TableId) (tableRow : List SerializableCell)
  | delete (tableId : TableId) (oldTableRow : Option (Bool × List SerializableCell))
  | begin
  | commit
  | unsupported (debug : String)
  deriving DecidableEq, Repr

/-- Debug rendering of an `ArrayCell` (`format!("{:?}", cell)` in the catch-alls).
Only its injectivity on the variants reaching it would matter; the round trip
discards it, so a constructor tag suffices. -/
def arrayCellDebug : ArrayCell → String
  | .times _ => "Time"
  | .timestamps _ => "Timestamp"
  | .jsons _ => "Json"
  | .bytess _ => "Bytes"
  | _ => "ArrayCell"

/-- `From<ArrayCell> for SerializableArrayCell`. -/
def serArrayCell : ArrayCell → SerializableArrayCell
  | .bools v => .bools v
  | .i16s v => .i16s v
  | .i32s v => .i32s v
  | .i64s v => .i64s v
  | .f32s v => .f32s v
  | .f64s v => .f64s v
  | .strs v => .strs v
  | .numerics v => .numerics v
  | .dates v => .dates v
  | .timestamptzs v => .timestamptzs v
  | .uuids v => .uuids v
  | c => .unknown (arrayCellDebug c)

/-- `From<Cell> for SerializableCell`.  (`to_string` calls on numeric, uuid,
date, time, timestamp payloads are identities under the textual modelling;
`to_rfc3339` likewise on the timestamptz payload.) -/
def serCell : Cell → SerializableCell
  | .null => .null
  | .bool v => .bool v
  | .string v => .string v
  | .i16 v => .i16 v
  | .i32 v => .i32 v
  | .i64 v => .i64 v
  | .f32 v => .f32 v
  | .f64 v => .f64 v
  | .bytes v => .bytes v
  | .json v => .json v
  | .numeric v => .numeric v
  | .uuid v => .uuid v
  | .date v => .date v
  | .time v => .time v
  | .timestamp v => .timestamp v
  | .timestamptz v => .timestamptz v
  | .array v => .array (serArrayCell v)

/-- Debug rendering of an `Event` for the `Unsupported` catch-all; the round trip
never reads it back. -/
def eventDebug : Event → String
  | .relation info => "Relation(" ++ info ++ ")"
  | _ => "Unsupported"

/-- `From<Event> for SerializableEvent`.  `Update`'s `old_table_row` is dropped
(no field for it), `Begin`/`Commit` payloads are dropped, `Relation` and
`Unsupported` go through the catch-all. -/
def serEvent : Event → SerializableEvent
  | .insert tid row _ _ => .insert tid (row.map serCell)
  | .update tid row _ _ _ => .update tid (row.map serCell)
  | .delete tid old _ _ => .delete tid (old.map (fun p => (p.1, p.2.map serCell)))
  | .begin _ _ _ _ => .begin
  | .commit _ _ _ _ _ => .commit
  | e => .unsupported (eventDebug e)

/-- `From<SerializableArrayCell> for ArrayCell`.  The `Unknown` arm collapses to
an empty string array. -/
def arrayCellOfSer : SerializableArrayCell → ArrayCell
  | .bools v => .bools v
  | .i16s v => .i16s v
  | .i32s v => .i32s v
  | .i64s v => .i64s v
  | .f32s v => .f32s v
  | .f64s v => .f64s v
  | .strs v => .strs v
  | .numerics v => .numerics v
  | .dates v => .dates v
  | .timestamptzs v => .timestamptzs v
  | .uuids v => .uuids v
  | .unknown _ => .strs []

/-- `From<SerializableCell> for Cell` (the `parse().unwrap_or_default()` calls
succeed on values produced by `serCell` under the textual modelling). -/
def cellOfSer : SerializableCell → Cell
  | .null => .null
  | .bool v => .bool v
  | .string v => .string v
  | .i16 v => .i16 v
  | .i32 v => .i32 v
  | .i64 v => .i64 v
  | .f32 v => .f32 v
  | .f64 v => .f64 v
  | .bytes v => .bytes v
  | .json v => .json v
  | .numeric v => .numeric v
  | .uuid v => .uuid v
  | .date v => .date v
  | .time v => .time v
  | .timestamp v => .timestamp v
  | .timestamptz v => .timestamptz v
  | .array v => .array (arrayCellOfSer v)

/-- `From<SerializableEvent> for Event`.  LSNs are reset to `0`; `Begin`/`Commit`
timestamps are rebuilt from `chrono::Utc::now()`, passed here as `now`;
`Update.old_table_row` comes back as `None`; the catch-all yields `Unsupported`. -/
def eventOfSer (now : Int) : SerializableEvent → Event
  | .insert tid row => .insert tid (row.map cellOfSer) 0 0
  | .update tid row => .update tid (row.map cellOfSer) none 0 0
  | .delete tid old => .delete tid (old.map (fun p => (p.1, p.2.map cellOfSer))) 0 0
  | .begin => .begin 0 0 now 0
  | .commit => .commit 0 0 0 0 now
  | .unsupported _ => .unsupported

/-! ## `src/dlq/store.rs` — the DLQ store

Events keyspace keys are `"{dest}:{table}:{timestamp}:{uuid}"`, metadata keys are
`"count:{dest}:{table}"`.  The timestamp and uuid of a push are parameters here
(clock / randomness). -/

/-- `DlqStore::make_prefix`: `format!("{}:{}", pipeline_dest_id, table_name)` —
note: no trailing `':'`. -/
def makePrefix (pipelineDestId : Int) (tableName : String) : Key :=
  (toString pipelineDestId).data ++ ':' :: tableName.data

/-- The event-entry key of a push: `format!("{}:{}:{}", prefix, timestamp, uuid)`. -/
def mkEventKey (pipelineDestId : Int) (tableName : String) (timestamp uuid : List Char) : Key :=
  makePrefix pipelineDestId tableName ++ ':' :: (timestamp ++ ':' :: uuid)

/-- The metadata key: `format!("count:{}:{}", pipeline_dest_id, table_name)`. -/
def mkCountKey (pipelineDestId : Int) (tableName : String) : Key :=
  "count:".data ++ makePrefix pipelineDestId tableName

/-- The two keyspaces of the DLQ store (`dlq_events`, `dlq_metadata`).  Event
values are the JSON-encoded `Vec<SerializableEvent>`; serde round trips the
derived encoding faithfully, so we carry the list itself.  Metadata values are
ASCII decimal counts; we carry the `Nat`. -/
structure DlqState where
  events : List (Key × List SerializableEvent)
  metadata : List (Key × Nat)
  deriving DecidableEq, Repr

/-- The freshly opened (or fully drained) store. -/
def DlqState.empty : DlqState := ⟨[], []⟩

/-- `DlqStore::get_stored_count`: metadata lookup, absent or unparsable → 0. -/
def getStoredCount (st : DlqState) (pipelineDestId : Int) (tableName : String) : Nat :=
  (kvFind? st.metadata (mkCountKey pipelineDestId tableName)).getD 0

/-- `DlqStore::update_count_metadata`: remove the key at zero, else store the
count. -/
def updateCountMetadata (st : DlqState) (pipelineDestId : Int) (tableName : String)
    (count : Nat) : DlqState :=
  let key := mkCountKey pipelineDestId tableName
  if count = 0 then { st with metadata := kvRemove key st.metadata }
  else { st with metadata := kvInsert key count st.metadata }

/-- `DlqStore::push`: serialise, write under a fresh `(timestamp, uuid)` key, then
bump the metadata count.  Empty batches return immediately. -/
def DlqStore.push (st : DlqState) (pipelineDestId : Int) (tableName : String)
    (timestamp uuid : List Char) (events : List Event) : DlqState :=
  if events = [] then st
  else
    let serializableEvents := events.map serEvent
    let key := mkEventKey pipelineDestId tableName timestamp uuid
    let st1 : DlqState := { st with events := kvInsert key serializableEvents st.events }
    let count := getStoredCount st1 pipelineDestId tableName + serializableEvents.length
    updateCountMetadata st1 pipelineDestId tableName count

/-- The scan loop of `DlqStore::pop_batch` over the prefix-matched entries, in
store order.  Returns the collected (deserialised) events, the keys of fully
consumed entries, and the rewrite of a partially consumed entry, mirroring
`all_events` / `keys_to_delete` / the in-loop `insert` of the remainder. -/
def popLoop (now : Int) (limit : Nat) :
    List (Key × List SerializableEvent) → Nat →
    List Event × List Key × Option (Key × List SerializableEvent)
  | [], _ => ([], [], none)
  | (key, ses) :: rest, eventsCount =>
    if ses = [] then
      -- empty entry: deleted, scan continues
      let (col, dels, rw) := popLoop now limit rest eventsCount
      (col, key :: dels, rw)
    else
      let events := ses.map (eventOfSer now)
      if eventsCount + events.length ≤ limit then
        let (col, dels, rw) := popLoop now limit rest (eventsCount + events.length)
        (events ++ col, key :: dels, rw)
      else
        let needed := limit - eventsCount
        let remaining := events.drop needed
        (events.take needed, [], some (key, remaining.map serEvent))

/-- `DlqStore::pop_batch`: prefix-scan `"{dest}:{table}"` (no trailing `':'`),
collect up to `limit` events oldest-first, rewrite the split entry under its own
key, delete consumed entries, and decrement the metadata count by the number of
events returned (saturating). -/
def DlqStore.popBatch (st : DlqState) (now : Int) (pipelineDestId : Int)
    (tableName : String) (limit : Nat) : List Event × DlqState :=
  let p := makePrefix pipelineDestId tableName
  let (allEvents, keysToDelete, rewrite) := popLoop now limit (kvScan st.events p) 0
  let afterRewrite : List (Key × List SerializableEvent) :=
    match rewrite with
    | some (key, value) => kvInsert key value st.events
    | none => st.events
  let afterDelete := keysToDelete.foldl (fun acc key => kvRemove key acc) afterRewrite
  let st1 : DlqState := { st with events := afterDelete }
  let currentTotal := getStoredCount st1 pipelineDestId tableName
  let newTotal := currentTotal - allEvents.length
  (allEvents, updateCountMetadata st1 pipelineDestId tableName newTotal)

/-- Events reachable by a prefix scan of `"{dest}:{table}:"` — the spec's (claim
C4's) notion, with the trailing separator. -/
def reachableCount (st : DlqState) (pipelineDestId : Int) (tableName : String) : Nat :=
  ((kvScan st.events (makePrefix pipelineDestId tableName ++ [':'])).map
    (fun kv => kv.2.length)).sum

/-- The stored metadata count as read back (`get_stored_count`). -/
def metaCount (st : DlqState) (pipelineDestId : Int) (tableName : String) : Nat :=
  getStoredCount st pipelineDestId tableName

/-- The C4 invariant: every pair's metadata count equals its reachable event
count. -/
def countInvariant (st : DlqState) : Prop :=
  ∀ (d : Int) (t : String), metaCount st d t = reachableCount st d t

/-- The C4 invariant restricted to pairs whose table name is free of the `':'`
key separator (the sink always uses a rendered `TableId` or `"unknown"`, both
separator-free; a table name containing `':'` makes the flat key format
ambiguous and the invariant unstatable). -/
def countInvariantCF (st : DlqState) : Prop :=
  ∀ (d : Int) (t : String), ':' ∉ t.data →
    metaCount st d t = reachableCount st d t

/-- Store well-formedness: the events keyspace is strictly key-sorted (as fjall
maintains it), and no entry holds an empty event list (pushes never write one;
rewrites keep a non-empty remainder). -/
def DlqState.WF (st : DlqState) : Prop :=
  st.events.Pairwise (fun a b => keyLt a.1 b.1 = true) ∧ ∀ kv ∈ st.events, kv.2 ≠ []

/-! ## `src/dlq/retry.rs` — retry manager and connection-error classifier -/

/-- `DEFAULT_BACKOFF_SCHEDULE`, seconds. -/
def DEFAULT_BACKOFF_SCHEDULE : List Nat := [5, 10, 15, 30, 60, 120, 180, 300]

/-- `RetryManager` state (`backoff_schedule`, `current_attempt`, `is_retrying`). -/
structure RetryManager where
  backoffSchedule : List Nat
  currentAttempt : Nat
  isRetrying : Bool
  deriving DecidableEq, Repr

/-- `RetryManager::new()`. -/
def RetryManager.new : RetryManager :=
  { backoffSchedule := DEFAULT_BACKOFF_SCHEDULE, currentAttempt := 0, isRetrying := false }

/-- `RetryManager::next_delay`: `fetch_add` the attempt counter and index the
schedule, clamped to the last element.  Returns the delay in seconds. -/
def RetryManager.nextDelay (m : RetryManager) : Nat × RetryManager :=
  let attempt := m.currentAttempt
  let index := min attempt (m.backoffSchedule.length - 1)
  ((m.backoffSchedule.get? index).getD 0, { m with currentAttempt := attempt + 1 })

/-- `RetryManager::reset`. -/
def RetryManager.reset (m : RetryManager) : RetryManager :=
  { m with currentAttempt := 0, isRetrying := false }

/-- Run `n` successive `next_delay()` calls, collecting the returned delays. -/
def RetryManager.runCalls (m : RetryManager) : Nat → List Nat × RetryManager
  | 0 => ([], m)
  | n + 1 =>
    let (d, m1) := m.nextDelay
    let (ds, m2) := m1.runCalls n
    (d :: ds, m2)

/-- The substring pattern list of `is_connection_error`, in source order. -/
def connectionErrorPatterns : List String :=
  ["connection refused", "connection reset", "connection closed",
   "connection timed out", "timeout", "network", "broken pipe",
   "no route to host", "host unreachable", "connection aborted", "socket",
   "eof", "end of file", "i/o error", "io error", "connect error",
   "failed to connect", "unable to connect", "could not connect", "dns",
   "resolve", "ssl", "tls", "handshake"]

/-- Character-wise lowercasing (model of `str::to_lowercase`; the matched
patterns are ASCII). -/
def toLowerStr (s : String) : String :=
  ⟨s.data.map Char.toLower⟩

/-- `needle` occurs as a contiguous substring of `hay` (`str::contains`). -/
def listContainsSub (hay needle : List Char) : Bool :=
  keyStartsWith hay needle ||
    match hay with
    | [] => false
    | _ :: t => listContainsSub t needle

/-- `String` wrapper for `listContainsSub`. -/
def strContainsSub (hay needle : String) : Bool :=
  listContainsSub hay.data needle.data

/-- `is_connection_error` of `src/dlq/retry.rs`: lowercase, then substring-match
any pattern.  (Rust `to_lowercase` is modelled character-wise; the patterns are
ASCII.) -/
def is_connection_error (error : String) : Bool :=
  let errorLower := toLowerStr error
  connectionErrorPatterns.any (fun p => strContainsSub errorLower p)

/-! ## `src/destination_enum.rs` — destination wrapper with DLQ -/

/-- The Rust `format!("{}", table_id)` rendering a `TableId`. -/
def tableIdDisplay (tid : TableId) : String := toString tid

/-- `DestinationWithDlq::extract_table_name` composed with
`unwrap_or_else(|| "unknown")`: the first event's table id if it is an
Insert/Update/Delete, `"unknown"` otherwise. -/
def extractTableName (events : List Event) : String :=
  match events.head? with
  | some (.insert tid _ _ _) => tableIdDisplay tid
  | some (.update tid _ _ _ _) => tableIdDisplay tid
  | some (.delete tid _ _ _) => tableIdDisplay tid
  | _ => "unknown"

/-- The row the wrapper UPDATEs in `pipelines_destination` (`update_error_in_db`). -/
structure DbErrorUpdate where
  isError : Bool
  errorMessage : Option String
  setsLastErrorAtToNow : Bool
  whereId : Int
  deriving DecidableEq, Repr

/-- In-memory state of a `DestinationWithDlq` that `write_events` /
`set_error_state` touch. -/
structure WrapperState where
  pipelineDestId : Int
  isError : Bool
  errorMessage : Option String
  dlq : DlqState
  pendingTables : List String
  deriving DecidableEq, Repr

/-- `HashSet::insert` on `pending_tables`. -/
def insertPending (tables : List String) (t : String) : List String :=
  if t ∈ tables then tables else t :: tables

/-- `DestinationWithDlq::set_error_state` (identical code in
`DlqDestinationWrapper::set_error_state`, `src/dlq/wrapper.rs`): set the flag,
store the message in memory, and UPDATE the DB row — with the fixed string
`"Database Error"`, not the message itself. -/
def setErrorState (st : WrapperState) (errorMsg : String) : WrapperState × DbErrorUpdate :=
  ({ st with isError := true, errorMessage := some errorMsg },
   { isError := true, errorMessage := some "Database Error",
     setsLastErrorAtToNow := true, whereId := st.pipelineDestId })

/-- Everything observable about one `DestinationWithDlq::write_events` call. -/
structure WriteOutcome where
  /-- `Ok(())` or the propagated inner error (by its debug string). -/
  result : Except String Unit
  /-- whether `self.destination.write_events` was invoked -/
  innerCalled : Bool
  /-- `(table, batch)` arguments of `push_to_dlq` calls, in order -/
  dlqPushes : List (String × List Event)
  /-- `set_error_state` DB updates issued -/
  dbUpdates : List DbErrorUpdate
  /-- whether `start_recovery_loop()` was invoked -/
  recoveryStarted : Bool
  state : WrapperState
  deriving Repr

/-- `DestinationWithDlq::write_events` (`src/destination_enum.rs` lines 205-257).
`innerResult` is the outcome `self.destination.write_events(events)` would
produce (`Except.error s` carries `format!("{:?}", e)`); `timestamp`/`uuid` are
the fresh-key material a DLQ push would use. -/
def writeEventsDlq (st : WrapperState) (events : List Event)
    (innerResult : Except String Unit) (timestamp uuid : List Char) : WriteOutcome :=
  if events = [] then
    { result := .ok (), innerCalled := false, dlqPushes := [], dbUpdates := [],
      recoveryStarted := false, state := st }
  else
    let tableName := extractTableName events
    if st.isError then
      -- error state: straight to the DLQ, ensure recovery is running
      let dlq1 := DlqStore.push st.dlq st.pipelineDestId tableName timestamp uuid events
      let st1 := { st with dlq := dlq1,
                           pendingTables := insertPending st.pendingTables tableName }
      { result := .ok (), innerCalled := false, dlqPushes := [(tableName, events)],
        dbUpdates := [], recoveryStarted := true, state := st1 }
    else
      match innerResult with
      | .ok () =>
        { result := .ok (), innerCalled := true, dlqPushes := [], dbUpdates := [],
          recoveryStarted := false, state := st }
      | .error errorStr =>
        if is_connection_error errorStr then
          let (st1, upd) := setErrorState st errorStr
          let dlq1 := DlqStore.push st1.dlq st1.pipelineDestId tableName timestamp uuid events
          let st2 := { st1 with dlq := dlq1,
                                pendingTables := insertPending st1.pendingTables tableName }
          { result := .ok (), innerCalled := true, dlqPushes := [(tableName, events)],
            dbUpdates := [upd], recoveryStarted := true, state := st2 }
        else
          { result := .error errorStr, innerCalled := true, dlqPushes := [],
            dbUpdates := [], recoveryStarted := false, state := st }

/-! ## Recovery single-flight latch

`DestinationWithDlq::start_recovery_loop` guards on
`is_retrying.swap(true, SeqCst)` and the spawned loop stores `false` back only
when it exits (successful `check_connection` probe).  `RetryManager::
spawn_retry_loop` uses the same `swap` guard on its own latch and releases it on
the stop signal, or via `reset()` on a successful probe.  We model the latch and
the number of live loop tasks as a transition system whose transitions are
exactly the latch operations those code paths perform. -/

structure RecoveryState where
  /-- the `is_retrying` atomic -/
  latch : Bool
  /-- how many spawned recovery-loop tasks are currently alive -/
  loops : Nat
  deriving DecidableEq, Repr

/-- `start_recovery_loop` / `spawn_retry_loop` entry: `swap(true)`; an already
set latch returns without spawning. -/
def startRecoveryLoop (s : RecoveryState) : RecoveryState :=
  if s.latch then s else { latch := true, loops := s.loops + 1 }

/-- A running loop exits — on a successful health probe (storing `false` /
`reset()`) or on the stop signal — releasing the latch. -/
def loopExit (s : RecoveryState) : RecoveryState :=
  { latch := false, loops := s.loops - 1 }

/-- States reachable from process start (`is_retrying = false`, no loop) by the
operations the code performs: loop starts, and exits of a *running* loop. -/
inductive RecoveryReachable : RecoveryState → Prop where
  | init : RecoveryReachable ⟨false, 0⟩
  | start {s : RecoveryState} : RecoveryReachable s → RecoveryReachable (startRecoveryLoop s)
  | exit {s : RecoveryState} : RecoveryReachable s → 1 ≤ s.loops →
      RecoveryReachable (loopExit s)

/-! ## `src/snowflake/client.rs` — Snowpipe streaming client -/

/-- Client state fields that `authenticate` / `open_channel` mutate. -/
structure SnowpipeClient where
  ingestHost : Option String
  scopedToken : Option String
  channelSequencer : Nat
  deriving DecidableEq, Repr

/-- The environment of `authenticate`: the JWT produced by the auth manager and
the discovered ingest hostname (both external; discovery assumed reachable). -/
structure AuthEnv where
  jwt : String
  discoveredHost : String
  deriving DecidableEq, Repr

/-- `SnowpipeClient::authenticate`: discover the ingest host if unknown, then
use the JWT directly as the scoped token. -/
def authenticate (env : AuthEnv) (c : SnowpipeClient) : SnowpipeClient :=
  let c1 := if c.ingestHost = none
    then { c with ingestHost := some ("https://" ++ env.discoveredHost) } else c
  { c1 with scopedToken := some env.jwt }

/-- One HTTP response to the channel-open PUT. -/
inductive HttpResp where
  | status401
  | success (clientSequencer : Option Nat) (nextContinuationToken : Option String)
  | failure (body : String)
  deriving DecidableEq, Repr

/-- `SnowpipeClient::open_channel`: authenticate if no token, then PUT.  A 401
response re-authenticates and retries the whole call (`Box::pin` recursion) —
with **no retry bound**.  `resps` is the stream of responses the server gives to
successive PUT attempts (an exhausted stream models a transport failure).
Returns the result, the new client state, and the number of `authenticate`
calls performed. -/
def openChannel (env : AuthEnv) : List HttpResp → SnowpipeClient →
    Except String String × SnowpipeClient × Nat
  | resps, c =>
    let a0 : Nat := if c.scopedToken = none then 1 else 0
    let c0 := if c.scopedToken = none then authenticate env c else c
    match resps with
    | [] => (.error "no response", c0, a0)
    | .status401 :: rest =>
      let retried := openChannel env rest (authenticate env c0)
      (retried.1, retried.2.1, a0 + 1 + retried.2.2)
    | .success seq tok :: _ =>
      (.ok (tok.getD ""), { c0 with channelSequencer := seq.getD 0 }, a0)
    | .failure body :: _ => (.error ("Open channel failed: " ++ body), c0, a0)

/-- One HTTP response to the row-insert POST (a 401 is just a non-success
status here). -/
inductive InsertResp where
  | success (nextContinuationToken : Option String)
  | failure (status : Nat) (body : String)
  deriving DecidableEq, Repr

/-- `SnowpipeClient::insert_rows` (takes `&self`): POST once; any non-success
status — including 401 — is an error.  There is no `authenticate` call in this
method, so the re-authentication count is `0` by construction. -/
def insertRows (_c : SnowpipeClient) (resp : InsertResp) : Except String String × Nat :=
  match resp with
  | .success tok => (.ok (tok.getD ""), 0)
  | .failure _ body => (.error ("Insert rows failed: " ++ body), 0)

/-- Responses consumed before the first non-401 answer. -/
def countLeading401 : List HttpResp → Nat
  | .status401 :: rest => countLeading401 rest + 1
  | _ => 0

/-- The outcome `open_channel` reduces to: that of the first non-401 response.
(Stated from the amended claim's words, to compare with `openChannel`.) -/
def firstNon401Outcome : List HttpResp → Except String String
  | [] => .error "no response"
  | .status401 :: rest => firstNon401Outcome rest
  | .success _ tok :: _ => .ok (tok.getD "")
  | .failure body :: _ => .error ("Open channel failed: " ++ body)

/-! ## `src/snowflake/destination.rs` — warehouse sink (sync resolution / skip) -/

/-- Model of `serde_json::Value` as built by `cell_to_json_value` /
`row_to_json_object`.  Float payloads stay opaque bit patterns. -/
inductive Jv where
  | null
  | bool (v : Bool)
  | str (v : String)
  | int (v : Int)
  | f32bits (v : Nat)
  | f64bits (v : Nat)
  | rendered (v : String)
  | arr (v : List Jv)
  | obj (fields : List (String × Jv))
  deriving Repr

/-- Opaque stand-in for the `Display` of a Rust float carried as bits. -/
def floatDisplay (bits : Nat) : String := toString bits

/-- `cell_to_json_value` of `src/snowflake/destination.rs`. -/
def cellToJsonValue (cell : Cell) : Jv :=
  match cell with
  | .null => .null
  | .bool v => .bool v
  | .string v => .str v
  | .i16 v => .int v
  | .i32 v => .int v
  | .i64 v => .int v
  | .f32 v => .f32bits v
  | .f64 v => .f64bits v
  | .bytes v => .str ("<bytes len=" ++ toString v.length ++ ">")
  | .json v => .rendered v
  | .numeric v => .str v
  | .uuid v => .str v
  | .array v =>
    match v with
    | .bools l => .arr (l.map (fun o => (o.map Jv.bool).getD .null))
    | .i16s l => .arr (l.map (fun o => (o.map Jv.int).getD .null))
    | .i32s l => .arr (l.map (fun o => (o.map Jv.int).getD .null))
    | .i64s l => .arr (l.map (fun o => (o.map Jv.int).getD .null))
    | .f32s l => .arr (l.map (fun o => (o.map Jv.f32bits).getD .null))
    | .f64s l => .arr (l.map (fun o => (o.map Jv.f64bits).getD .null))
    | .strs l => .arr (l.map (fun o => (o.map Jv.str).getD .null))
    | .numerics l => .arr (l.map (fun o => (o.map Jv.str).getD .null))
    | .dates l => .arr (l.map (fun o => (o.map Jv.str).getD .null))
    | .timestamptzs l => .arr (l.map (fun o => (o.map Jv.str).getD .null))
    | .uuids l => .arr (l.map (fun o => (o.map Jv.str).getD .null))
    | other => .str (arrayCellDebug other)
  | .date v => .str v
  | .time v => .str v
  | .timestamp v => .str v
  | .timestamptz v => .str v

/-- `row_to_json_object`: positional uppercase column names (`COL_{i}` fallback),
plus `OPERATION` and `SYNC_TIMESTAMP_ROSETTA` (`nowStr`, RFC 3339 at +07:00). -/
def rowToJsonObject (row : TableRow) (columnNames : List String)
    (operation : String) (nowStr : String) : Jv :=
  let valueFields := (row.enum).map (fun ci =>
    let colName := ((columnNames.get? ci.1).map String.toUpper).getD
      ("COL_" ++ toString ci.1)
    (colName, cellToJsonValue ci.2))
  .obj (valueFields ++ [("OPERATION", .str operation),
                        ("SYNC_TIMESTAMP_ROSETTA", .str nowStr)])

/-- `SnowflakeSyncConfig` (id, normalised target table). -/
structure SnowflakeSyncConfig where
  id : Option Int
  targetTable : String
  deriving DecidableEq, Repr

/-- The environment a `SnowflakeDestination::write_events` call reads:
control-DB/source-DB lookups (with their in-code error fallbacks folded in) and
the per-call outcomes of the client's channel/insert HTTP calls. -/
structure SnowWriteEnv where
  /-- `resolve_real_table_name` (cache + `pg_class` lookup, `UNKNOWN_{id}` fallback) -/
  realTableName : TableId → String
  /-- `resolve_column_names` (information schema, `[]` on error) -/
  columnNames : TableId → List String
  /-- rows of `pipelines_destination_table_sync` for a source table name:
  `(id, table_name_target)`; query errors yield `[]` -/
  syncRows : String → List (Int × String)
  /-- outcome of `client.open_channel(target, "default")`: the fresh token -/
  openChannelOutcome : String → Except String String
  /-- outcome of `client.insert_rows(target, "default", rows, token)` -/
  insertRowsOutcome : String → List Jv → String → Except String String
  /-- RFC 3339 rendering of now at +07:00 -/
  nowStr : String

/-- `SnowflakeDestination::resolve_syncs`: uppercase the target and ensure the
`LANDING_` prefix. -/
def resolveSyncs (env : SnowWriteEnv) (sourceTableName : String) : List SnowflakeSyncConfig :=
  (env.syncRows sourceTableName).map (fun r =>
    let upperTarget := r.2.toUpper
    let upperTarget := if upperTarget.startsWith "LANDING_" then upperTarget
      else "LANDING_" ++ upperTarget
    { id := some r.1, targetTable := upperTarget })

/-- `table_id` of an Insert/Update/Delete event. -/
def tableIdOf : Event → Option TableId
  | .insert tid _ _ _ => some tid
  | .update tid _ _ _ _ => some tid
  | .delete tid _ _ _ => some tid
  | _ => none

/-- Append an event to its table's group, creating the group on first sight. -/
def addToGroup (groups : List (TableId × List Event)) (tid : TableId) (e : Event) :
    List (TableId × List Event) :=
  match groups with
  | [] => [(tid, [e])]
  | (t, es) :: rest =>
    if t = tid then (t, es ++ [e]) :: rest else (t, es) :: addToGroup rest tid e

/-- The `events_by_table` grouping: only Insert/Update/Delete events, grouped by
`TableId` (`HashMap` iteration order is arbitrary in Rust; the model fixes
first-occurrence order — none of the verified properties depend on it). -/
def groupByTableId (events : List Event) : List (TableId × List Event) :=
  events.foldl (fun groups e =>
    match tableIdOf e with
    | some tid => addToGroup groups tid e
    | none => groups) []

/-- The JSON row of one event: Inserts/Updates use the new row (`"C"`/`"U"`),
Deletes the old row if present (`"D"`), else the event is dropped. -/
def eventToJsonRow (columnNames : List String) (nowStr : String) : Event → Option Jv
  | .insert _ row _ _ => some (rowToJsonObject row columnNames "C" nowStr)
  | .update _ row _ _ _ => some (rowToJsonObject row columnNames "U" nowStr)
  | .delete _ old _ _ =>
    match old with
    | some p => some (rowToJsonObject p.2 columnNames "D" nowStr)
    | none => none
  | _ => none

/-- External side effects of a `SnowflakeDestination::write_events` call. -/
inductive SnowEffect where
  | openedChannel (target : String)
  | insertedRows (target : String) (rows : List Jv)
  | monitored (sourceTable : String) (recordCount : Nat) (syncId : Option Int)
  deriving Repr

/-- The per-sync inner loop body: look up / open the channel, insert, record
monitoring. -/
def snowWriteSync (env : SnowWriteEnv) (sourceName : String) (recordCount : Nat)
    (jsonRows : List Jv) (acc : List (String × String) × List SnowEffect)
    (sync : SnowflakeSyncConfig) :
    Except String (List (String × String) × List SnowEffect) :=
  let (tokens, effects) := acc
  let target := sync.targetTable
  let token := ((tokens.find? (fun kv => kv.1 = target)).map Prod.snd).getD ""
  match (if token = "" then
           (env.openChannelOutcome target).map (fun t => (t, [SnowEffect.openedChannel target]))
         else .ok (token, [])) with
  | .error e => .error ("Open channel failed: " ++ e)
  | .ok (token1, openEff) =>
    match env.insertRowsOutcome target jsonRows token1 with
    | .error e => .error ("Write events failed: " ++ e)
    | .ok nextToken =>
      let tokens1 := (target, nextToken) ::
        tokens.filter (fun kv => ¬(kv.1 = target))
      .ok (tokens1, effects ++ openEff ++
        [SnowEffect.insertedRows target jsonRows,
         SnowEffect.monitored sourceName recordCount sync.id])

/-- One `(table_id, events)` group of `SnowflakeDestination::write_events`. -/
def snowWriteGroup (env : SnowWriteEnv) (acc : List (String × String) × List SnowEffect)
    (group : TableId × List Event) :
    Except String (List (String × String) × List SnowEffect) :=
  let sourceName := env.realTableName group.1
  let syncs := resolveSyncs env sourceName
  let columnNames := env.columnNames group.1
  let recordCount := group.2.length
  let jsonRows := group.2.filterMap (eventToJsonRow columnNames env.nowStr)
  if jsonRows.isEmpty then .ok acc
  else syncs.foldlM (snowWriteSync env sourceName recordCount jsonRows) acc

/-- `SnowflakeDestination::write_events`: empty batch short-circuits; otherwise
group by table and fan out per sync.  Takes and returns the `current_token` map
(keyed by target table name) and yields the effect trace. -/
def snowflakeWriteEvents (env : SnowWriteEnv) (tokens : List (String × String))
    (events : List Event) :
    Except String Unit × List (String × String) × List SnowEffect :=
  if events = [] then (.ok (), tokens, [])
  else
    match (groupByTableId events).foldlM (snowWriteGroup env) (tokens, []) with
    | .error e => (.error e, tokens, [])
    | .ok (tokens1, effects) => (.ok (), tokens1, effects)

/-! ## `src/postgres/destination.rs` — analytical SQL sink (sync resolution / skip) -/

/-- `"0123456789abcdef"` digit of `n < 16`. -/
def hexDigitChar (n : Nat) : Char :=
  "0123456789abcdef".data.getD n '0'

/-- `format!("{:02x}", b)`. -/
def byteHex (b : Nat) : String :=
  ⟨[hexDigitChar (b / 16 % 16), hexDigitChar (b % 16)]⟩

/-- Join rendered array elements with `","`, `NULL` for absent ones, and wrap in
braces (the Postgres array literal of `cell_to_string`). -/
def pgArrayLiteral (elems : List (Option String)) : String :=
  "\x7b" ++ String.intercalate "," (elems.map (fun o => o.getD "NULL")) ++ "\x7d"

/-- The quoted-and-escaped form of a string array element:
`format!("\"{}\"", s.replace("\"", "\\\""))`. -/
def quotedArrayElem (s : String) : String :=
  "\"" ++ s.replace "\"" "\\\"" ++ "\""

/-- `cell_to_string` of `src/postgres/destination.rs`: canonical text encoding of
a cell, `None` for SQL NULL. -/
def cellToString (cell : Cell) : Option String :=
  match cell with
  | .null => none
  | .bool v => some (toString v)
  | .string v => some v
  | .i16 v => some (toString v)
  | .i32 v => some (toString v)
  | .i64 v => some (toString v)
  | .f32 v => some (floatDisplay v)
  | .f64 v => some (floatDisplay v)
  | .bytes v => some ("\\x" ++ String.join (v.map byteHex))
  | .json v => some v
  | .numeric v => some v
  | .uuid v => some v
  | .array a =>
    match a with
    | .bools l => some (pgArrayLiteral (l.map (fun o => o.map toString)))
    | .i16s l => some (pgArrayLiteral (l.map (fun o => o.map toString)))
    | .i32s l => some (pgArrayLiteral (l.map (fun o => o.map toString)))
    | .i64s l => some (pgArrayLiteral (l.map (fun o => o.map toString)))
    | .f32s l => some (pgArrayLiteral (l.map (fun o => o.map floatDisplay)))
    | .f64s l => some (pgArrayLiteral (l.map (fun o => o.map floatDisplay)))
    | .strs l => some (pgArrayLiteral (l.map (fun o => o.map quotedArrayElem)))
    | .numerics l => some (pgArrayLiteral l)
    | .dates l => some (pgArrayLiteral l)
    | .timestamptzs l => some (pgArrayLiteral l)
    | .uuids l => some (pgArrayLiteral l)
    | other => some (arrayCellDebug other)
  | .date v => some v
  | .time v => some v
  | .timestamp v => some v
  | .timestamptz v => some v

/-- `PostgresDuckdbDestination::row_to_params`: pair cells with column types;
Postgres `"{…}"` array text is re-wrapped as a DuckDB `"[…]"` list when the
column type is an array type. -/
def rowToParams (row : TableRow) (columns : List (String × String)) :
    List (Option String) :=
  (row.zip columns).map (fun vc =>
    let s := cellToString vc.1
    match s with
    | some strVal =>
      if vc.2.2.endsWith "[]" && strVal.startsWith "\x7b" && strVal.endsWith "\x7d"
      then some ("[" ++ (strVal.drop 1).dropRight 1 ++ "]")
      else s
    | none => s)

/-- The `TableData` record `write_events` accumulates per `(group, sync rule)`. -/
structure TableData where
  syncId : Option Int
  tableName : String
  tableNameTarget : String
  schemaName : String
  shortTableName : String
  columns : List (String × String)
  pkColumns : List String
  customSql : String
  filterSql : String
  upsertEvents : List (List (Option String))
  deleteEvents : List (List (Option String))
  deriving DecidableEq, Repr

/-- Environment of a `PostgresDuckdbDestination::write_events` call.  The
per-`TableData` DuckDB processing (source lines 567–1003) stages, filters,
transforms and upserts each entry and records the per-sync outcome on its
control-DB row; it cannot fail the call, whose result after a successful init
is always `Ok(())`, so the model's output is the built `TableData` work list. -/
structure PgWriteEnv where
  /-- `resolve_table_name` (cache + `regclass` cast, `unknown_table_{id}` fallback) -/
  tableName : TableId → String
  /-- `resolve_columns` (`(name, type)` pairs, `[]` on error) -/
  columns : TableId → List (String × String)
  /-- `resolve_primary_key_columns` (`[]` on error) -/
  pkColumns : TableId → List String
  /-- `get_table_sync_config`: `(id, custom_sql, filter_sql, table_name_target)`
  rows; a query error propagates -/
  syncConfig : String → Except String (List (Int × String × String × String))
  /-- `get_duckdb_connection()`: in-memory engine + postgres ATTACH -/
  duckdbInit : Except String Unit

/-- `splitn(2, '.')` of a qualified table name. -/
def splitFirstDot (s : String) : String × String :=
  (⟨s.data.takeWhile (fun c => ¬(c = '.'))⟩,
   ⟨((s.data.dropWhile (fun c => ¬(c = '.'))).drop 1)⟩)

/-- Schema/short-name resolution for one sync target (lines 512–527): explicit
schema if the target is dot-qualified, else the source table's schema, else
`public`. -/
def resolveTargetParts (tableName targetName : String) : String × String :=
  if targetName.contains '.' then splitFirstDot targetName
  else
    let sourceSchema :=
      if tableName.contains '.' then (splitFirstDot tableName).1 else "public"
    (sourceSchema, targetName)

/-- The upsert/delete parameter rows of one event group (lines 488–507). -/
def partitionEventParams (columns : List (String × String)) (events : List Event) :
    List (List (Option String)) × List (List (Option String)) :=
  events.foldl (fun acc e =>
    match e with
    | .insert _ row _ _ => (acc.1 ++ [rowToParams row columns], acc.2)
    | .update _ row _ _ _ => (acc.1 ++ [rowToParams row columns], acc.2)
    | .delete _ old _ _ =>
      match old with
      | some p => (acc.1, acc.2 ++ [rowToParams p.2 columns])
      | none => acc
    | _ => acc) ([], [])

/-- One group's contribution to `tables_data` (lines 461–543): skip on missing
columns, propagate a sync-config fetch error, skip when no sync rows match, and
otherwise emit one `TableData` per sync rule. -/
def pgCollectGroup (env : PgWriteEnv) (acc : List TableData)
    (group : TableId × List Event) : Except String (List TableData) :=
  let tableName := env.tableName group.1
  let columns := env.columns group.1
  if columns = [] then .ok acc
  else
    match env.syncConfig tableName with
    | .error e => .error ("Fetch config error: " ++ e)
    | .ok syncConfigs =>
      if syncConfigs = [] then .ok acc
      else
        let pkColumns := env.pkColumns group.1
        let (upsertEvents, deleteEvents) := partitionEventParams columns group.2
        .ok (acc ++ syncConfigs.map (fun cfg =>
          let parts := resolveTargetParts tableName cfg.2.2.2
          { syncId := some cfg.1, tableName := tableName,
            tableNameTarget := cfg.2.2.2, schemaName := parts.1,
            shortTableName := parts.2, columns := columns,
            pkColumns := pkColumns, customSql := cfg.2.1,
            filterSql := cfg.2.2.1, upsertEvents := upsertEvents,
            deleteEvents := deleteEvents }))

/-- `PostgresDuckdbDestination::write_events` up to the per-`TableData` DuckDB
processing: empty batches return `Ok` before any connection is made; otherwise
build `tables_data`, open the DuckDB connection (with its remote ATTACH), and
hand the work list to the processing loop — which records per-sync outcomes and
leaves the overall result `Ok`. -/
def pgWriteEvents (env : PgWriteEnv) (events : List Event) :
    Except String (List TableData) :=
  if events = [] then .ok []
  else
    match (groupByTableId events).foldlM (pgCollectGroup env) [] with
    | .error e => .error e
    | .ok tablesData =>
      match env.duckdbInit with
      | .error e => .error ("DuckDB Init: " ++ e)
      | .ok () => .ok tablesData

/-! ## Round-trip definitions for the DLQ serialisation -/

/-- The DLQ round trip of one event: serialise on push, deserialise on pop
(`now` is the pop-time clock used for `Begin`/`Commit` timestamps). -/
def dlqRoundTripEvent (now : Int) (e : Event) : Event :=
  eventOfSer now (serEvent e)

/-- Array cells with a dedicated `SerializableArrayCell` variant (the rest go
through the lossy `Unknown` catch-all). -/
def arrayCellSupported : ArrayCell → Bool
  | .times _ | .timestamps _ | .jsons _ | .bytess _ => false
  | _ => true

/-- Cells the serialisation round trips losslessly (under the canonical-text
modelling of numeric/temporal payloads). -/
def cellSupported : Cell → Bool
  | .array a => arrayCellSupported a
  | _ => true

/-- All cells of a row are serialisable. -/
def rowSupported (r : TableRow) : Bool :=
  r.all cellSupported

/-- All events stored under entries matching prefix `p`, in store (key) order,
as `pop_batch` would deserialise them. -/
def scannedEvents (now : Int) (st : DlqState) (p : Key) : List Event :=
  (kvScan st.events p).flatMap (fun kv => kv.2.map (eventOfSer now))

/-- Total number of events held by a list of store entries. -/
def totalLen (l : List (Key × List SerializableEvent)) : Nat :=
  (l.map (fun kv => kv.2.length)).sum

/-- Concrete store refuting C3's scan-scope: one entry of table `"a!"` and one
two-event entry of table `"a"` for destination 1 (the key of table `"a!"` sorts
before table `"a"`'s keys yet matches the separator-less scan prefix `"1:a"`). -/
def c3Store : DlqState :=
  DlqStore.push
    (DlqStore.push DlqState.empty 1 "a!" ['0'] ['u'] [.insert 10 [] 0 0])
    1 "a" ['1'] ['v'] [.insert 20 [] 0 0, .insert 30 [] 0 0]

/-- Concrete store refuting C4: push one event for table `"ab"`, then pop table
`"a"` — the separator-less scan consumes table `"ab"`'s entry while decrementing
table `"a"`'s (absent) counter. -/
def c4Store : DlqState :=
  (DlqStore.popBatch
    (DlqStore.push DlqState.empty 1 "ab" ['0'] ['u'] [.insert 10 [] 0 0])
    0 1 "a" 1).2

/-! ## Helper lemmas -/

/-- After `n` calls, `next_delay` has advanced the attempt counter by `n` and
touched nothing else. -/
theorem RetryManager.runCalls_state (m : RetryManager) :
    ∀ n : Nat, (m.runCalls n).2 = { m with currentAttempt := m.currentAttempt + n }
  | 0 => by simp [RetryManager.runCalls]
  | n + 1 => by
    have ih := RetryManager.runCalls_state
      { m with currentAttempt := m.currentAttempt + 1 } n
    simp only [RetryManager.runCalls, RetryManager.nextDelay] at ih ⊢
    rw [ih]
    congr 1
    omega

theorem RetryManager.runCalls_schedule (m : RetryManager) (n : Nat) :
    (m.runCalls n).2.backoffSchedule = m.backoffSchedule := by
  rw [RetryManager.runCalls_state]

/-! ## C6 — backoff schedule -/

/-- **C6.** With the default schedule, `next_delay` returns 5, 10, 15, 30, 60,
120, 180 and 300 seconds on its first eight calls in that order; the 9th and
every later call returns 300 seconds; and after `reset()` the attempt counter
reads 0 and the next call returns 5 seconds again. -/
theorem C6_backoff_schedule :
    (RetryManager.new.runCalls 8).1 = [5, 10, 15, 30, 60, 120, 180, 300]
    ∧ (∀ n : Nat, 8 ≤ n → ((RetryManager.new.runCalls n).2.nextDelay).1 = 300)
    ∧ (∀ n : Nat, ((RetryManager.new.runCalls n).2.reset).currentAttempt = 0
        ∧ (((RetryManager.new.runCalls n).2.reset).nextDelay).1 = 5) := by
  refine ⟨by decide, ?_, ?_⟩
  · intro n hn
    rw [RetryManager.runCalls_state]
    simp only [RetryManager.nextDelay, RetryManager.new, DEFAULT_BACKOFF_SCHEDULE]
    have h7 : n ⊓ 7 = 7 := by omega
    simp [h7]
  · intro n
    rw [RetryManager.runCalls_state]
    simp [RetryManager.reset, RetryManager.nextDelay, RetryManager.new,
      DEFAULT_BACKOFF_SCHEDULE]

/-- Witness for C6: the 9th call (after 8 calls) returns 300 s, and reset after
3 calls restarts at 5 s. -/
theorem C6_backoff_schedule_witness :
    ((RetryManager.new.runCalls 8).2.nextDelay).1 = 300
    ∧ ((RetryManager.new.runCalls 3).2.reset).currentAttempt = 0 :=
  ⟨C6_backoff_schedule.2.1 8 (by decide), (C6_backoff_schedule.2.2 3).1⟩

/-! ## C7 — connection-error classifier -/

/-- **C7.** `is_connection_error(message)` returns `true` iff the lowercased
message contains at least one of the listed tokens (the claim's token list,
written out), and `false` for every message containing none of them. -/
theorem C7_is_connection_error (m : String) :
    is_connection_error m = true ↔
      ∃ p ∈ (["connection refused", "connection reset", "connection closed",
              "connection timed out", "connection aborted", "timeout", "network",
              "broken pipe", "no route to host", "host unreachable", "socket",
              "eof", "end of file", "i/o error", "io error", "failed to connect",
              "unable to connect", "could not connect", "connect error", "dns",
              "resolve", "ssl", "tls", "handshake"] : List String),
        strContainsSub (toLowerStr m) p = true := by
  have hperm : List.Perm connectionErrorPatterns
      ["connection refused", "connection reset", "connection closed",
       "connection timed out", "connection aborted", "timeout", "network",
       "broken pipe", "no route to host", "host unreachable", "socket",
       "eof", "end of file", "i/o error", "io error", "failed to connect",
       "unable to connect", "could not connect", "connect error", "dns",
       "resolve", "ssl", "tls", "handshake"] := by decide
  simp only [is_connection_error, List.any_eq_true]
  exact ⟨fun ⟨p, hp, hc⟩ => ⟨p, hperm.mem_iff.mp hp, hc⟩,
         fun ⟨p, hp, hc⟩ => ⟨p, hperm.mem_iff.mpr hp, hc⟩⟩

/-! ## C9 — set_error_state -/

/-- **C9 counterexample.** `set_error_state("connection reset")` issues a DB
UPDATE whose `error_message` is the fixed string `"Database Error"`, not the
message passed in — refuting the claim that the UPDATE carries the same
message `m`. -/
theorem C9_counterexample :
    (setErrorState
        { pipelineDestId := 7, isError := false, errorMessage := none,
          dlq := DlqState.empty, pendingTables := [] }
        "connection reset").2.errorMessage = some "Database Error"
    ∧ ¬((setErrorState
        { pipelineDestId := 7, isError := false, errorMessage := none,
          dlq := DlqState.empty, pendingTables := [] }
        "connection reset").2.errorMessage = some "connection reset") := by
  constructor
  · rfl
  · decide

/-- **C9 amended.** For every message `m`, `set_error_state(m)` sets the
`is_error` flag, stores `m` as the in-memory `error_message`, and issues an
UPDATE on `pipelines_destination` setting `is_error = true`, `error_message` to
the fixed string `"Database Error"`, and `last_error_at` to now, for the row
whose id is the destination's `pipeline_dest_id` (identical in
`src/destination_enum.rs` and `src/dlq/wrapper.rs`). -/
theorem C9_amended (st : WrapperState) (m : String) :
    (setErrorState st m).1.isError = true
    ∧ (setErrorState st m).1.errorMessage = some m
    ∧ (setErrorState st m).2 =
        { isError := true, errorMessage := some "Database Error",
          setsLastErrorAtToNow := true, whereId := st.pipelineDestId } := by
  simp [setErrorState]

/-! ## C5 — recovery single-flight -/

/-- **C5.** At most one recovery loop task exists per destination at any
instant: in every state reachable by loop starts and loop exits from process
start, the number of live loops is at most one (and zero whenever the
`is_retrying` latch is clear); and a `start_recovery_loop` /
`spawn_retry_loop` call finding the latch set leaves the state unchanged —
it returns without spawning a second loop. -/
theorem C5_single_flight :
    (∀ s : RecoveryState, RecoveryReachable s →
      s.loops ≤ 1 ∧ (s.latch = false → s.loops = 0))
    ∧ (∀ s : RecoveryState, s.latch = true → startRecoveryLoop s = s) := by
  constructor
  · intro s hs
    induction hs with
    | init => simp
    | start h ih =>
      rename_i s1
      by_cases hl : s1.latch = true
      · have heq : startRecoveryLoop s1 = s1 := by simp [startRecoveryLoop, hl]
        rw [heq]
        exact ih
      · have h0 : s1.loops = 0 := ih.2 (by simpa using hl)
        simp [startRecoveryLoop, hl, h0]
    | exit h hle ih =>
      obtain ⟨ih1, ih2⟩ := ih
      simp only [loopExit]
      omega
  · intro s hs
    simp [startRecoveryLoop, hs]

/-- Witness for C5: the state after one successful `start_recovery_loop` (latch
set, one loop) is reachable and satisfies the bound; a second start is a
no-op. -/
theorem C5_single_flight_witness :
    RecoveryReachable ⟨true, 1⟩ ∧ (⟨true, 1⟩ : RecoveryState).loops ≤ 1
    ∧ startRecoveryLoop ⟨true, 1⟩ = ⟨true, 1⟩ := by
  have hreach : RecoveryReachable ⟨true, 1⟩ := by
    have h := RecoveryReachable.start RecoveryReachable.init
    simpa [startRecoveryLoop] using h
  exact ⟨hreach, (C5_single_flight.1 _ hreach).1, C5_single_flight.2 _ rfl⟩

/-! ## C8 — 401 handling in the warehouse client -/

/-- `open_channel` re-authenticates once per 401 response (plus once if it had
no token), without bound, and its result is that of the first non-401
response. -/
theorem openChannel_spec (env : AuthEnv) :
    ∀ (resps : List HttpResp) (c : SnowpipeClient),
      (openChannel env resps c).2.2 =
          (if c.scopedToken = none then 1 else 0) + countLeading401 resps
      ∧ (openChannel env resps c).1 = firstNon401Outcome resps
  | [], c => by
    simp [openChannel, countLeading401, firstNon401Outcome]
  | .status401 :: rest, c => by
    have ih := openChannel_spec env rest
      (authenticate env (if c.scopedToken = none then authenticate env c else c))
    have htok : (authenticate env
        (if c.scopedToken = none then authenticate env c else c)).scopedToken =
        some env.jwt := by
      simp [authenticate]
    rw [htok] at ih
    simp only [openChannel, countLeading401, firstNon401Outcome]
    refine ⟨?_, ih.2⟩
    rw [ih.1]
    simp
    omega
  | .success seq tok :: rest, c => by
    simp [openChannel, countLeading401, firstNon401Outcome]
  | .failure body :: rest, c => by
    simp [openChannel, countLeading401, firstNon401Outcome]

/-- **C8 counterexample.** With a token in hand and a server answering 401,
401, success: `open_channel` *succeeds* after two re-authentications instead of
erroring on the second 401; and `insert_rows`, on a 401 response, returns an
error having performed *zero* re-authentications instead of one re-auth and a
retry. -/
theorem C8_counterexample :
    (openChannel { jwt := "jwt", discoveredHost := "host" }
        [.status401, .status401, .success (some 1) (some "t3")]
        { ingestHost := some "https://host", scopedToken := some "tok",
          channelSequencer := 0 }).1 = .ok "t3"
    ∧ (openChannel { jwt := "jwt", discoveredHost := "host" }
        [.status401, .status401, .success (some 1) (some "t3")]
        { ingestHost := some "https://host", scopedToken := some "tok",
          channelSequencer := 0 }).2.2 = 2
    ∧ insertRows
        { ingestHost := some "https://host", scopedToken := some "tok",
          channelSequencer := 0 } (.failure 401 "unauthorized")
        = (.error "Insert rows failed: unauthorized", 0) := by
  refine ⟨rfl, rfl, rfl⟩

/-- **C8 amended.** On `open_channel`, every 401 response triggers one
re-authentication and a retry of the same call, with no retry bound: the number
of re-authentications equals the number of leading 401 responses (plus the
initial authentication when no token is cached), and the call's outcome is that
of the first non-401 response.  `insert_rows` performs no re-authentication at
all and returns an error on any non-success response, including 401. -/
theorem C8_amended :
    (∀ (env : AuthEnv) (resps : List HttpResp) (c : SnowpipeClient),
      (openChannel env resps c).2.2 =
          (if c.scopedToken = none then 1 else 0) + countLeading401 resps
      ∧ (openChannel env resps c).1 = firstNon401Outcome resps)
    ∧ (∀ (c : SnowpipeClient) (resp : InsertResp), (insertRows c resp).2 = 0)
    ∧ (∀ (c : SnowpipeClient) (status : Nat) (body : String),
      insertRows c (.failure status body) =
        (.error ("Insert rows failed: " ++ body), 0)) := by
  refine ⟨fun env resps c => openChannel_spec env resps c, ?_, ?_⟩
  · intro c resp
    cases resp <;> rfl
  · intro c status body
    rfl

/-! ## C1 — write_events failover behaviour -/

/-- **C1.** For every non-empty batch sent to `DestinationWithDlq::write_events`
on a destination whose `is_error` flag is clear: if the inner write fails with
an error whose debug string is classified as a connection error, the wrapper
transitions to the error state, pushes the whole batch to the DLQ under the
table name extracted from the first event when it is an Insert/Update/Delete
(`"unknown"` otherwise), starts the recovery loop, and returns success; if the
error is not classified as a connection error, that same error is propagated;
and `write_events` on an empty batch returns success without calling the inner
destination or touching the DLQ. -/
theorem C1_write_events_failover (st : WrapperState) (ts uuid : List Char) :
    (∀ (events : List Event) (msg : String),
      st.isError = false → events ≠ [] → is_connection_error msg = true →
        (writeEventsDlq st events (.error msg) ts uuid).result = .ok ()
        ∧ (writeEventsDlq st events (.error msg) ts uuid).state.isError = true
        ∧ (writeEventsDlq st events (.error msg) ts uuid).state.errorMessage = some msg
        ∧ (writeEventsDlq st events (.error msg) ts uuid).dlqPushes
            = [(extractTableName events, events)]
        ∧ (writeEventsDlq st events (.error msg) ts uuid).state.dlq
            = DlqStore.push st.dlq st.pipelineDestId (extractTableName events)
                ts uuid events
        ∧ (writeEventsDlq st events (.error msg) ts uuid).recoveryStarted = true)
    ∧ (∀ (events : List Event) (msg : String),
      st.isError = false → events ≠ [] → is_connection_error msg = false →
        writeEventsDlq st events (.error msg) ts uuid =
          { result := .error msg, innerCalled := true, dlqPushes := [],
            dbUpdates := [], recoveryStarted := false, state := st })
    ∧ (∀ innerResult : Except String Unit,
        writeEventsDlq st [] innerResult ts uuid =
          { result := .ok (), innerCalled := false, dlqPushes := [],
            dbUpdates := [], recoveryStarted := false, state := st })
    ∧ (extractTableName [] = "unknown"
       ∧ (∀ (tid : TableId) (row : TableRow) (a b : Nat) (rest : List Event),
           extractTableName (.insert tid row a b :: rest) = tableIdDisplay tid)
       ∧ (∀ (a b : Nat) (t : Int) (x : Nat) (rest : List Event),
           extractTableName (.begin a b t x :: rest) = "unknown")) := by
  refine ⟨?_, ?_, ?_, by simp [extractTableName], ?_, ?_⟩
  · intro events msg hne hev hconn
    simp [writeEventsDlq, hne, hev, hconn, setErrorState]
  · intro events msg hne hev hconn
    simp [writeEventsDlq, hne, hev, hconn]
  · intro innerResult
    simp [writeEventsDlq]
  · intro tid row a b rest
    simp [extractTableName]
  · intro a b t x rest
    simp [extractTableName]

/-- Witness for C1 at a concrete state and batch: connection-classified failure
is absorbed (DLQ push + recovery + `Ok`), a non-connection failure propagates,
and the empty batch is a no-op. -/
theorem C1_write_events_failover_witness :
    ((writeEventsDlq
        { pipelineDestId := 3, isError := false, errorMessage := none,
          dlq := DlqState.empty, pendingTables := [] }
        [.insert 9 [.i32 1] 0 0] (.error "connection reset by peer")
        ['1'] ['u']).result = .ok ()
     ∧ (writeEventsDlq
        { pipelineDestId := 3, isError := false, errorMessage := none,
          dlq := DlqState.empty, pendingTables := [] }
        [.insert 9 [.i32 1] 0 0] (.error "connection reset by peer")
        ['1'] ['u']).dlqPushes = [("9", [.insert 9 [.i32 1] 0 0])])
    ∧ (writeEventsDlq
        { pipelineDestId := 3, isError := false, errorMessage := none,
          dlq := DlqState.empty, pendingTables := [] }
        [.insert 9 [.i32 1] 0 0] (.error "duplicate key value") ['1'] ['u']).result
        = .error "duplicate key value"
    ∧ (writeEventsDlq
        { pipelineDestId := 3, isError := false, errorMessage := none,
          dlq := DlqState.empty, pendingTables := [] }
        [] (.error "connection reset by peer") ['1'] ['u']).result = .ok () := by
  have h1 := (C1_write_events_failover
    { pipelineDestId := 3, isError := false, errorMessage := none,
      dlq := DlqState.empty, pendingTables := [] } ['1'] ['u']).1
    [.insert 9 [.i32 1] 0 0] "connection reset by peer" rfl (by decide) (by decide)
  have h2 := (C1_write_events_failover
    { pipelineDestId := 3, isError := false, errorMessage := none,
      dlq := DlqState.empty, pendingTables := [] } ['1'] ['u']).2.1
    [.insert 9 [.i32 1] 0 0] "duplicate key value" rfl (by decide) (by decide)
  have h3 := (C1_write_events_failover
    { pipelineDestId := 3, isError := false, errorMessage := none,
      dlq := DlqState.empty, pendingTables := [] } ['1'] ['u']).2.2.1
    (.error "connection reset by peer")
  refine ⟨⟨h1.1, ?_⟩, by rw [h2], by rw [h3]⟩
  have := h1.2.2.2.1
  simpa [extractTableName, tableIdDisplay] using this

/-! ## C10 — batches with no matching sync rows are silently dropped -/

/-- Group fold helper: when every group's source table resolves to no sync rows,
`snowWriteGroup` leaves the accumulator unchanged through the whole fold. -/
theorem snowWriteGroups_no_syncs (env : SnowWriteEnv) :
    ∀ (groups : List (TableId × List Event))
      (acc : List (String × String) × List SnowEffect),
      (∀ g ∈ groups, env.syncRows (env.realTableName g.1) = []) →
      groups.foldlM (snowWriteGroup env) acc = .ok acc
  | [], acc, _ => rfl
  | g :: rest, acc, h => by
    have hg : env.syncRows (env.realTableName g.1) = [] := h g (by simp)
    have hgroup : snowWriteGroup env acc g = .ok acc := by
      simp only [snowWriteGroup, resolveSyncs, hg, List.map_nil]
      split <;> rfl
    have hrest := snowWriteGroups_no_syncs env rest acc
      (fun g' hg' => h g' (by simp [hg']))
    simp only [List.foldlM, hgroup]
    exact hrest

/-- `pgCollectGroup` skips a group whose sync config resolves to no rows. -/
theorem pgCollectGroups_no_syncs (env : PgWriteEnv) :
    ∀ (groups : List (TableId × List Event)) (acc : List TableData),
      (∀ g ∈ groups, env.syncConfig (env.tableName g.1) = .ok []) →
      groups.foldlM (pgCollectGroup env) acc = .ok acc
  | [], acc, _ => rfl
  | g :: rest, acc, h => by
    have hg : env.syncConfig (env.tableName g.1) = .ok [] := h g (by simp)
    have hgroup : pgCollectGroup env acc g = .ok acc := by
      simp only [pgCollectGroup, hg]
      split <;> rfl
    have hrest := pgCollectGroups_no_syncs env rest acc
      (fun g' hg' => h g' (by simp [hg']))
    simp only [List.foldlM, hgroup]
    exact hrest

/-- **C10.** For every batch whose Insert/Update/Delete events all belong to
source tables with no matching `pipelines_destination_table_sync` row, both
sinks' `write_events` return success while writing nothing to the external
target: the Snowflake sink opens no channel, inserts no rows, records no
monitoring row and leaves its token map unchanged, and the Postgres/DuckDB sink
builds an empty work list — the events are silently dropped with no error
raised or queued (given a successful DuckDB attach). -/
theorem C10_no_sync_rows_dropped :
    (∀ (env : SnowWriteEnv) (tokens : List (String × String)) (events : List Event),
      (∀ g ∈ groupByTableId events, env.syncRows (env.realTableName g.1) = []) →
      snowflakeWriteEvents env tokens events = (.ok (), tokens, []))
    ∧ (∀ (env : PgWriteEnv) (events : List Event),
      (∀ g ∈ groupByTableId events, env.syncConfig (env.tableName g.1) = .ok []) →
      env.duckdbInit = .ok () →
      pgWriteEvents env events = .ok []) := by
  constructor
  · intro env tokens events h
    by_cases hev : events = []
    · simp [snowflakeWriteEvents, hev]
    · simp [snowflakeWriteEvents, hev,
        snowWriteGroups_no_syncs env (groupByTableId events) (tokens, []) h]
  · intro env events h hinit
    by_cases hev : events = []
    · simp [pgWriteEvents, hev]
    · simp [pgWriteEvents, hev,
        pgCollectGroups_no_syncs env (groupByTableId events) [] h, hinit]

/-- Witness for C10: a one-insert batch against environments with no sync rows
is dropped by both sinks. -/
theorem C10_no_sync_rows_dropped_witness :
    (snowflakeWriteEvents
      { realTableName := fun _ => "users", columnNames := fun _ => ["id"],
        syncRows := fun _ => [], openChannelOutcome := fun _ => .ok "tok",
        insertRowsOutcome := fun _ _ _ => .ok "tok2", nowStr := "t" }
      [] [.insert 1 [.i32 1] 0 0] = (.ok (), [], []))
    ∧ (pgWriteEvents
      { tableName := fun _ => "public.users", columns := fun _ => [("id", "int4")],
        pkColumns := fun _ => ["id"], syncConfig := fun _ => .ok [],
        duckdbInit := .ok () }
      [.insert 1 [.i32 1] 0 0] = .ok []) :=
  ⟨C10_no_sync_rows_dropped.1 _ [] _ (fun _ _ => rfl),
   C10_no_sync_rows_dropped.2 _ _ (fun _ _ => rfl) rfl⟩

/-! ## C2 — DLQ round trip -/

theorem arrayCell_roundTrip (a : ArrayCell) (h : arrayCellSupported a = true) :
    arrayCellOfSer (serArrayCell a) = a := by
  cases a <;> simp_all [serArrayCell, arrayCellOfSer, arrayCellSupported]

theorem cell_roundTrip (c : Cell) (h : cellSupported c = true) :
    cellOfSer (serCell c) = c := by
  cases c <;> simp_all [serCell, cellOfSer, cellSupported, arrayCell_roundTrip]

theorem row_roundTrip (r : TableRow) (h : rowSupported r = true) :
    (r.map serCell).map cellOfSer = r := by
  rw [List.map_map]
  have hall : ∀ c ∈ r, cellSupported c = true := by
    simpa [rowSupported, List.all_eq_true] using h
  have : ∀ c ∈ r, (cellOfSer ∘ serCell) c = id c := fun c hc =>
    cell_roundTrip c (hall c hc)
  rw [List.map_congr_left this, List.map_id]

/-- A fjall key built as `pfx ++ rest` is found by a prefix scan for `pfx`. -/
theorem keyStartsWith_append (p r : Key) : keyStartsWith (p ++ r) p = true := by
  induction p with
  | nil => cases r <;> rfl
  | cons c tail ih => simp [keyStartsWith, ih]

/-- The key a push writes lies under the pushed pair's with-separator prefix. -/
theorem mkEventKey_startsWith_colon (d : Int) (t : String) (ts uuid : List Char) :
    keyStartsWith (mkEventKey d t ts uuid) (makePrefix d t ++ [':']) = true := by
  have : mkEventKey d t ts uuid = (makePrefix d t ++ [':']) ++ (ts ++ ':' :: uuid) := by
    simp [mkEventKey]
  rw [this]
  exact keyStartsWith_append _ _

/-- ... and hence also under the separator-less prefix the code scans. -/
theorem mkEventKey_startsWith (d : Int) (t : String) (ts uuid : List Char) :
    keyStartsWith (mkEventKey d t ts uuid) (makePrefix d t) = true := by
  have : mkEventKey d t ts uuid = makePrefix d t ++ (':' :: (ts ++ ':' :: uuid)) := by
    simp [mkEventKey]
  rw [this]
  exact keyStartsWith_append _ _

/-- Push to the empty store followed by a large-enough pop returns the image of
the batch under the serialisation round trip. -/
theorem push_pop_empty_store (d : Int) (t : String) (ts uuid : List Char)
    (now : Int) (events : List Event) (limit : Nat) (h : events.length ≤ limit) :
    (DlqStore.popBatch (DlqStore.push DlqState.empty d t ts uuid events)
        now d t limit).1 = events.map (dlqRoundTripEvent now) := by
  by_cases hev : events = []
  · subst hev
    simp [DlqStore.push, DlqStore.popBatch, DlqState.empty, kvScan, popLoop,
      getStoredCount, kvFind?, updateCountMetadata]
  · have hpush : DlqStore.push DlqState.empty d t ts uuid events =
        { events := [(mkEventKey d t ts uuid, events.map serEvent)],
          metadata := [(mkCountKey d t, events.length)] } := by
      simp [DlqStore.push, hev, DlqState.empty, kvInsert, getStoredCount,
        kvFind?, updateCountMetadata]
    rw [hpush]
    have hscan : kvScan [(mkEventKey d t ts uuid, events.map serEvent)]
        (makePrefix d t) = [(mkEventKey d t ts uuid, events.map serEvent)] := by
      simp [kvScan, mkEventKey_startsWith]
    have hne : ¬(events.map serEvent) = [] := by
      simp [List.map_eq_nil_iff]
      exact hev
    have hloop : popLoop now limit [(mkEventKey d t ts uuid, events.map serEvent)] 0 =
        ((events.map serEvent).map (eventOfSer now), [mkEventKey d t ts uuid], none) := by
      simp [popLoop, hne, h]
    simp only [DlqStore.popBatch, hscan, hloop]
    simp [List.map_map, dlqRoundTripEvent]

/-- **C2 counterexample.** An `Update` event carrying an old row does not round
trip through `push`/`pop_batch`: the old row's cells are dropped
(`old_table_row` comes back as `None`), though the claim includes them among
the preserved "full row cells". -/
theorem C2_counterexample :
    (DlqStore.popBatch
        (DlqStore.push DlqState.empty 1 "5" ['0'] ['u']
          [.update 5 [.i32 2] (some (true, [.i32 1])) 0 0]) 0 1 "5" 10).1
      = [.update 5 [.i32 2] none 0 0]
    ∧ (DlqStore.popBatch
        (DlqStore.push DlqState.empty 1 "5" ['0'] ['u']
          [.update 5 [.i32 2] (some (true, [.i32 1])) 0 0]) 0 1 "5" 10).1
      ≠ [.update 5 [.i32 2] (some (true, [.i32 1])) 0 0] := by
  constructor
  · decide
  · decide

/-- **C2 amended.** `push` followed by `pop_batch` with a limit at least the
batch length returns the image of the event sequence under the serialisation
round trip, in order.  That round trip preserves each Insert/Update/Delete
event's variant, `TableId`, new-row cells and Delete's old row (for rows whose
array cells have serialisable element types), and zeroes LSNs; but it drops
`Update`'s old row (`None` on return), rebuilds `Begin`/`Commit` metadata
(LSNs, xid zeroed; timestamp set to the pop-time clock), and collapses
`Relation` and other unhandled variants to `Unsupported`. -/
theorem C2_roundtrip_amended :
    (∀ (d : Int) (t : String) (ts uuid : List Char) (now : Int)
       (events : List Event) (limit : Nat),
      events.length ≤ limit →
      (DlqStore.popBatch (DlqStore.push DlqState.empty d t ts uuid events)
          now d t limit).1 = events.map (dlqRoundTripEvent now))
    ∧ (∀ (now : Int) (tid : TableId) (row : TableRow) (a b : Nat),
        rowSupported row = true →
        dlqRoundTripEvent now (.insert tid row a b) = .insert tid row 0 0)
    ∧ (∀ (now : Int) (tid : TableId) (row : TableRow)
         (old : Option (Bool × TableRow)) (a b : Nat),
        rowSupported row = true →
        dlqRoundTripEvent now (.update tid row old a b) = .update tid row none 0 0)
    ∧ (∀ (now : Int) (tid : TableId) (old : Option (Bool × TableRow)) (a b : Nat),
        (∀ p ∈ old, rowSupported p.2 = true) →
        dlqRoundTripEvent now (.delete tid old a b) = .delete tid old 0 0)
    ∧ (∀ (now : Int) (a b : Nat) (c : Int) (x : Nat),
        dlqRoundTripEvent now (.begin a b c x) = .begin 0 0 now 0)
    ∧ (∀ (now : Int) (a b c : Nat) (f tm : Int),
        dlqRoundTripEvent now (.commit a b c f tm) = .commit 0 0 0 0 now)
    ∧ (∀ (now : Int) (info : String),
        dlqRoundTripEvent now (.relation info) = .unsupported)
    ∧ (∀ now : Int, dlqRoundTripEvent now .unsupported = .unsupported) := by
  refine ⟨push_pop_empty_store, ?_, ?_, ?_, ?_, ?_, ?_, ?_⟩
  · intro now tid row a b hrow
    simp [dlqRoundTripEvent, serEvent, eventOfSer, row_roundTrip row hrow]
  · intro now tid row old a b hrow
    simp [dlqRoundTripEvent, serEvent, eventOfSer, row_roundTrip row hrow]
  · intro now tid old a b hold
    cases old with
    | none => simp [dlqRoundTripEvent, serEvent, eventOfSer]
    | some p =>
      have hp : rowSupported p.2 = true := hold p (by simp)
      simp [dlqRoundTripEvent, serEvent, eventOfSer, row_roundTrip p.2 hp]
  · intro now a b c x
    rfl
  · intro now a b c f tm
    rfl
  · intro now info
    rfl
  · intro now
    rfl

/-- Witness for C2 (amended): a concrete two-event batch (insert + update with
old row) round trips to its `dlqRoundTripEvent` image, and the characterisation
holds at a concrete supported row. -/
theorem C2_roundtrip_amended_witness :
    (DlqStore.popBatch
        (DlqStore.push DlqState.empty 2 "7" ['3'] ['w']
          [.insert 7 [.string "x"] 1 2, .update 7 [.i64 5] (some (true, [.i64 4])) 3 4])
        0 2 "7" 2).1
      = [.insert 7 [.string "x"] 0 0, .update 7 [.i64 5] none 0 0]
    ∧ dlqRoundTripEvent 0 (.update 7 [.i64 5] (some (true, [.i64 4])) 3 4)
      = .update 7 [.i64 5] none 0 0 := by
  have h1 := C2_roundtrip_amended.1 2 "7" ['3'] ['w'] 0
    [.insert 7 [.string "x"] 1 2, .update 7 [.i64 5] (some (true, [.i64 4])) 3 4]
    2 (by decide)
  have h2 := C2_roundtrip_amended.2.2.1 0 7 [.i64 5]
    (some (true, [.i64 4])) 3 4 (by decide)
  constructor
  · rw [h1]
    decide
  · exact h2

/-! ## C3 / C4 — counterexamples (prefix aliasing of the separator-less scan) -/

/-- **C3 counterexample.** In `c3Store` the entries under prefix `"1:a:"` hold
2 events, more than `limit = 1`, so the claim prescribes returning the oldest
event stored for table `"a"` — but `pop_batch(1, "a", 1)` scans the
separator-less prefix `"1:a"`, which also matches table `"a!"`'s
earlier-sorting entry, and returns that table's event instead. -/
theorem C3_counterexample :
    1 < reachableCount c3Store 1 "a"
    ∧ (scannedEvents 0 c3Store (makePrefix 1 "a" ++ [':'])).take 1
        = [.insert 20 [] 0 0]
    ∧ (DlqStore.popBatch c3Store 0 1 "a" 1).1 = [.insert 10 [] 0 0]
    ∧ ¬((DlqStore.popBatch c3Store 0 1 "a" 1).1
        = (scannedEvents 0 c3Store (makePrefix 1 "a" ++ [':'])).take 1) := by
  refine ⟨by decide, by decide, by decide, by decide⟩

/-- **C4 counterexample.** After `push(1, "ab", [e])` followed by
`pop_batch(1, "a", 1)`, table `"ab"`'s metadata counter still reads 1 while no
entry is reachable under prefix `"1:ab:"` — the separator-less scan of
`pop_batch` consumed `"ab"`'s entry while decrementing `"a"`'s counter,
violating the per-pair invariant after a pop. -/
theorem C4_counterexample :
    metaCount c4Store 1 "ab" = 1
    ∧ reachableCount c4Store 1 "ab" = 0
    ∧ ¬countInvariant c4Store :=
  ⟨by decide, by decide, fun h => absurd (h 1 "ab") (by decide)⟩

/-! ## Key-order and keyspace lemmas -/

theorem keyLt_irrefl (a : Key) : keyLt a a = false := by
  induction a with
  | nil => rfl
  | cons c t ih => simp [keyLt, ih]

theorem keyLt_asymm : ∀ {a b : Key}, keyLt a b = true → keyLt b a = false
  | [], [], h => by simp [keyLt] at h
  | [], _ :: _, _ => by simp [keyLt]
  | _ :: _, [], h => by simp [keyLt] at h
  | a :: as, b :: bs, h => by
    simp only [keyLt] at h ⊢
    rcases lt_trichotomy a b with hab | hab | hab
    · simp [hab, not_lt_of_lt hab]
    · subst hab
      simp only [lt_irrefl, if_false] at h ⊢
      exact keyLt_asymm h
    · simp [hab, not_lt_of_lt hab] at h

/-- Strict sortedness gives distinct keys. -/
theorem nodup_keys_of_sorted {l : List (Key × List SerializableEvent)}
    (h : l.Pairwise (fun a b => keyLt a.1 b.1 = true)) :
    (l.map Prod.fst).Nodup := by
  refine List.pairwise_map.mpr (h.imp ?_)
  intro a b hab heq
  rw [heq, keyLt_irrefl] at hab
  exact Bool.false_ne_true hab

theorem kvFind?_kvInsert_self {V : Type} (k : Key) (v : V) (l : List (Key × V)) :
    kvFind? (kvInsert k v l) k = some v := by
  induction l with
  | nil => simp [kvInsert, kvFind?]
  | cons kv t ih =>
    obtain ⟨k0, v0⟩ := kv
    by_cases hk : k = k0
    · subst hk
      simp [kvInsert, kvFind?]
    · by_cases hlt : keyLt k k0 = true
      · simp [kvInsert, hk, hlt, kvFind?]
      · simp [kvInsert, hk, hlt, kvFind?, ih]

theorem kvFind?_kvInsert_ne {V : Type} {k k' : Key} (v : V) (l : List (Key × V))
    (h : ¬(k' = k)) : kvFind? (kvInsert k v l) k' = kvFind? l k' := by
  induction l with
  | nil => simp [kvInsert, kvFind?, h]
  | cons kv t ih =>
    obtain ⟨k0, v0⟩ := kv
    by_cases hk : k = k0
    · subst hk
      simp [kvInsert, kvFind?, h]
    · by_cases hlt : keyLt k k0 = true
      · simp [kvInsert, hk, hlt, kvFind?, h]
      · simp [kvInsert, hk, hlt, kvFind?, ih]

theorem kvFind?_kvRemove_self {V : Type} (k : Key) (l : List (Key × V)) :
    kvFind? (kvRemove k l) k = none := by
  induction l with
  | nil => rfl
  | cons kv t ih =>
    obtain ⟨k0, v0⟩ := kv
    by_cases hk : k0 = k
    · simpa [kvRemove, List.filter_cons, hk] using ih
    · have hk' : ¬(k = k0) := fun he => hk he.symm
      simp only [kvRemove, List.filter_cons] at ih ⊢
      simp [hk, kvFind?, hk']
      simpa using ih

theorem kvFind?_kvRemove_ne {V : Type} {k k' : Key} (l : List (Key × V))
    (h : ¬(k' = k)) : kvFind? (kvRemove k l) k' = kvFind? l k' := by
  induction l with
  | nil => rfl
  | cons kv t ih =>
    obtain ⟨k0, v0⟩ := kv
    by_cases hk : k0 = k
    · subst hk
      simp only [kvRemove, List.filter_cons] at ih ⊢
      simp [kvFind?, h]
      simpa using ih
    · by_cases hk' : k' = k0
      · simp [kvRemove, List.filter_cons, hk, kvFind?, hk']
      · simp only [kvRemove, List.filter_cons] at ih ⊢
        simp [hk, kvFind?, hk']
        simpa using ih

/-- Prefix scans only weaken when the prefix is extended. -/
theorem keyStartsWith_of_append {k : Key} (a b : Key)
    (h : keyStartsWith k (a ++ b) = true) : keyStartsWith k a = true := by
  induction a generalizing k with
  | nil => cases k <;> rfl
  | cons c t ih =>
    cases k with
    | nil => simp [keyStartsWith] at h
    | cons c' k' =>
      simp only [List.cons_append, keyStartsWith, Bool.and_eq_true] at h ⊢
      exact ⟨h.1, ih h.2⟩

/-- Inserting a fresh key is, up to permutation, consing it. -/
theorem kvInsert_perm {V : Type} (k : Key) (v : V) :
    ∀ l : List (Key × V), k ∉ l.map Prod.fst → (kvInsert k v l).Perm ((k, v) :: l)
  | [], _ => by
    simp only [kvInsert]
    exact List.Perm.refl _
  | (k0, v0) :: t, h => by
    have hk : ¬(k = k0) := by
      intro he
      apply h
      rw [List.map_cons, he]
      exact List.mem_cons_self _ _
    by_cases hlt : keyLt k k0 = true
    · simp only [kvInsert, if_neg hk, if_pos hlt]
      exact List.Perm.refl _
    · have ht : k ∉ t.map Prod.fst := by
        intro hm
        apply h
        rw [List.map_cons]
        exact List.mem_cons_of_mem _ hm
      have ih := kvInsert_perm k v t ht
      simp only [kvInsert, if_neg hk, if_neg hlt]
      exact (ih.cons _).trans (List.Perm.swap _ _ _)

/-- On a strictly sorted list, upserting a present key replaces its value in
place. -/
theorem kvInsert_eq_map_of_mem {V : Type} (k : Key) (v old : V) :
    ∀ l : List (Key × V),
      l.Pairwise (fun a b => keyLt a.1 b.1 = true) → (k, old) ∈ l →
      kvInsert k v l = l.map (fun kv => if kv.1 = k then (k, v) else kv)
  | [], _, hmem => by simp at hmem
  | (k0, v0) :: t, hs, hmem => by
    obtain ⟨hhead, htail⟩ := List.pairwise_cons.mp hs
    rcases List.mem_cons.mp hmem with heq | hmem'
    · have hk : k = k0 := congrArg Prod.fst heq
      subst hk
      have hmap : t.map (fun kv => if kv.1 = k then (k, v) else kv) = t := by
        have hpt : ∀ kv ∈ t, (if kv.1 = k then (k, v) else kv) = kv := by
          intro kv hkv
          have hlt := hhead kv hkv
          have hne : ¬(kv.1 = k) := by
            intro he
            rw [he, keyLt_irrefl] at hlt
            exact Bool.false_ne_true hlt
          simp [hne]
        calc t.map (fun kv => if kv.1 = k then (k, v) else kv) = t.map id :=
              List.map_congr_left hpt
          _ = t := List.map_id t
      simp [kvInsert, hmap]
    · have hlt0 : keyLt k0 k = true := hhead (k, old) hmem'
      have hk : ¬(k = k0) := by
        intro he
        rw [he, keyLt_irrefl] at hlt0
        exact Bool.false_ne_true hlt0
      have hnlt : ¬(keyLt k k0 = true) := by
        rw [keyLt_asymm hlt0]
        simp
      have ih := kvInsert_eq_map_of_mem k v old t htail hmem'
      have hk0 : ¬(k0 = k) := fun he => hk he.symm
      simp [kvInsert, hk, hnlt, ih, hk0]

/-- A prefix scan of a key-preserving replacement map commutes with the map. -/
theorem kvScan_map_replace {V : Type} (l : List (Key × V)) (key : Key) (rem : V)
    (q : Key) :
    kvScan (l.map (fun kv => if kv.1 = key then (key, rem) else kv)) q
      = (kvScan l q).map (fun kv => if kv.1 = key then (key, rem) else kv) := by
  simp only [kvScan, List.filter_map]
  congr 1
  apply List.filter_congr
  intro kv _
  by_cases h : kv.1 = key <;> simp [h, Function.comp]

/-- The deletion loop of `pop_batch` is a filter on the deleted key set. -/
theorem foldl_kvRemove_eq_filter {V : Type} :
    ∀ (dels : List Key) (l : List (Key × V)),
      dels.foldl (fun acc k => kvRemove k acc) l
        = l.filter (fun kv => decide (kv.1 ∉ dels))
  | [], l => by simp
  | k :: rest, l => by
    simp only [List.foldl_cons]
    rw [foldl_kvRemove_eq_filter rest (kvRemove k l)]
    simp only [kvRemove, List.filter_filter]
    apply List.filter_congr
    intro kv _
    by_cases h1 : kv.1 = k <;> by_cases h2 : kv.1 ∈ rest <;> simp [h1, h2]

/-- Prefix scans commute with unrelated filters. -/
theorem kvScan_filter {V : Type} (l : List (Key × V)) (g : Key × V → Bool)
    (q : Key) : kvScan (l.filter g) q = (kvScan l q).filter g := by
  simp only [kvScan, List.filter_filter]
  apply List.filter_congr
  intro kv _
  rw [Bool.and_comm]

theorem totalLen_append (l1 l2 : List (Key × List SerializableEvent)) :
    totalLen (l1 ++ l2) = totalLen l1 + totalLen l2 := by
  simp [totalLen]

theorem totalLen_cons (kv : Key × List SerializableEvent)
    (l : List (Key × List SerializableEvent)) :
    totalLen (kv :: l) = kv.2.length + totalLen l := by
  simp [totalLen]

theorem totalLen_perm {l1 l2 : List (Key × List SerializableEvent)}
    (h : l1.Perm l2) : totalLen l1 = totalLen l2 :=
  (h.map _).sum_eq

/-- Reading back the counter just written. -/
theorem metaCount_update_self (st : DlqState) (d : Int) (t : String) (n : Nat) :
    metaCount (updateCountMetadata st d t n) d t = n := by
  by_cases hn : n = 0 <;>
    simp [updateCountMetadata, metaCount, getStoredCount, hn,
      kvFind?_kvRemove_self, kvFind?_kvInsert_self]

/-- Writing one pair's counter leaves every other counter key alone. -/
theorem metaCount_update_ne (st : DlqState) {d : Int} {t : String}
    {d' : Int} {t' : String} (n : Nat)
    (h : ¬(mkCountKey d' t' = mkCountKey d t)) :
    metaCount (updateCountMetadata st d t n) d' t' = metaCount st d' t' := by
  by_cases hn : n = 0 <;>
    simp [updateCountMetadata, metaCount, getStoredCount, hn,
      kvFind?_kvRemove_ne _ h, kvFind?_kvInsert_ne _ _ h]

/-- Distinct `(dest, table)` prefixes give distinct counter keys. -/
theorem mkCountKey_ne {d d' : Int} {t t' : String}
    (h : ¬(makePrefix d' t' = makePrefix d t)) :
    ¬(mkCountKey d' t' = mkCountKey d t) := by
  intro he
  exact h (List.append_cancel_left he)

theorem length_flatMap_conv (now : Int) (l : List (Key × List SerializableEvent)) :
    (l.flatMap (fun kv => kv.2.map (eventOfSer now))).length = totalLen l := by
  simp only [totalLen, List.length_flatMap]
  congr 1
  apply List.map_congr_left
  intro kv _
  simp

/-- `pop_batch`'s scan loop when everything fits within the limit: all entries
are consumed whole, in order, and marked for deletion. -/
theorem popLoop_all (now : Int) (limit : Nat) :
    ∀ (entries : List (Key × List SerializableEvent)) (cnt : Nat),
      (∀ kv ∈ entries, kv.2 ≠ []) → cnt + totalLen entries ≤ limit →
      popLoop now limit entries cnt =
        (entries.flatMap (fun kv => kv.2.map (eventOfSer now)),
         entries.map Prod.fst, none)
  | [], cnt, _, _ => by simp [popLoop]
  | (key, ses) :: rest, cnt, hne, hle => by
    have hses : ¬(ses = []) := hne (key, ses) (List.mem_cons_self _ _)
    have hcons := totalLen_cons (key, ses) rest
    have hfit : cnt + (ses.map (eventOfSer now)).length ≤ limit := by
      rw [List.length_map]
      simp only [totalLen_cons] at hle
      omega
    have ih := popLoop_all now limit rest (cnt + (ses.map (eventOfSer now)).length)
      (fun kv hkv => hne kv (List.mem_cons_of_mem _ hkv))
      (by rw [List.length_map]; simp only [totalLen_cons] at hle; omega)
    rw [List.length_map] at hfit ih
    simp [popLoop, hses, hfit, ih]

/-- `pop_batch`'s scan loop when the scanned entries hold more than the limit:
there is a split point — fully consumed entries before it, the split entry with
the remainder rewrite, and nothing after it is touched. -/
theorem popLoop_over (now : Int) (limit : Nat) :
    ∀ (entries : List (Key × List SerializableEvent)) (cnt : Nat),
      (∀ kv ∈ entries, kv.2 ≠ []) → cnt ≤ limit → limit < cnt + totalLen entries →
      ∃ pre key ses suf,
        entries = pre ++ (key, ses) :: suf
        ∧ cnt + totalLen pre ≤ limit
        ∧ limit < cnt + totalLen pre + ses.length
        ∧ popLoop now limit entries cnt =
            (pre.flatMap (fun kv => kv.2.map (eventOfSer now))
               ++ (ses.map (eventOfSer now)).take (limit - (cnt + totalLen pre)),
             pre.map Prod.fst,
             some (key,
               ((ses.map (eventOfSer now)).drop (limit - (cnt + totalLen pre))).map
                 serEvent))
  | [], cnt, _, hle, hover => by
    exfalso
    simp [totalLen] at hover
    omega
  | (key0, ses0) :: rest, cnt, hne, hle, hover => by
    have hses : ¬(ses0 = []) := hne _ (List.mem_cons_self _ _)
    by_cases hfit : cnt + (ses0.map (eventOfSer now)).length ≤ limit
    · have hlenfit : cnt + ses0.length ≤ limit := by
        rw [List.length_map] at hfit
        exact hfit
      have hover' : limit < (cnt + ses0.length) + totalLen rest := by
        simp only [totalLen_cons] at hover
        omega
      obtain ⟨pre, key, ses, suf, hdec, hb1, hb2, heq⟩ :=
        popLoop_over now limit rest (cnt + ses0.length)
          (fun kv hkv => hne kv (List.mem_cons_of_mem _ hkv)) hlenfit hover'
      refine ⟨(key0, ses0) :: pre, key, ses, suf, by rw [hdec, List.cons_append], ?_, ?_, ?_⟩
      · simp only [totalLen_cons]
        omega
      · simp only [totalLen_cons]
        omega
      · have hidx : limit - ((cnt + ses0.length) + totalLen pre)
            = limit - (cnt + totalLen ((key0, ses0) :: pre)) := by
          simp only [totalLen_cons]
          omega
        simp only [popLoop, if_neg hses, if_pos hfit, List.length_map, heq, hidx,
          List.flatMap_cons, List.map_cons, List.append_assoc]
        rw [if_pos hlenfit]
    · have hlt : limit < cnt + ses0.length := by
        rw [List.length_map] at hfit
        omega
      refine ⟨[], key0, ses0, rest, rfl, ?_, ?_, ?_⟩
      · simpa [totalLen] using hle
      · simp only [totalLen]
        simp
        omega
      · simp only [popLoop, if_neg hses, if_neg hfit]
        simp [totalLen]

/-- `updateCountMetadata` leaves the events keyspace alone. -/
theorem updateCountMetadata_events (st : DlqState) (d : Int) (t : String) (n : Nat) :
    (updateCountMetadata st d t n).events = st.events := by
  by_cases h : n = 0 <;> simp [updateCountMetadata, h]

/-- `updateCountMetadata` only reads the metadata keyspace of its input. -/
theorem updateCountMetadata_metadata_congr (st st' : DlqState) (d : Int)
    (t : String) (n : Nat) (h : st.metadata = st'.metadata) :
    (updateCountMetadata st d t n).metadata = (updateCountMetadata st' d t n).metadata := by
  by_cases hn : n = 0 <;> simp [updateCountMetadata, hn, h]

/-- Under the no-aliasing scope hypothesis, the separator-less scan the code
performs agrees with the with-separator scan of the spec. -/
theorem kvScan_scope_eq (st : DlqState) (d : Int) (t : String)
    (hscope : ∀ kv ∈ st.events, keyStartsWith kv.1 (makePrefix d t) = true →
      keyStartsWith kv.1 (makePrefix d t ++ [':']) = true) :
    kvScan st.events (makePrefix d t) = kvScan st.events (makePrefix d t ++ [':']) := by
  apply List.filter_congr
  intro kv hkv
  cases hp : keyStartsWith kv.1 (makePrefix d t) with
  | true => exact (hscope kv hkv hp).symm
  | false =>
    cases hpc : keyStartsWith kv.1 (makePrefix d t ++ [':']) with
    | false => rfl
    | true => exact absurd (keyStartsWith_of_append _ _ hpc) (by simp [hp])

/-- Full characterisation of an oversized `pop_batch` (more events in scope than
`limit`), under well-formedness and the no-aliasing scope hypothesis. -/
theorem popBatch_over_spec (st : DlqState) (now : Int) (d : Int) (t : String)
    (limit : Nat) (hwf : st.WF)
    (hscope : ∀ kv ∈ st.events, keyStartsWith kv.1 (makePrefix d t) = true →
      keyStartsWith kv.1 (makePrefix d t ++ [':']) = true)
    (hover : limit < totalLen (kvScan st.events (makePrefix d t ++ [':']))) :
    ∃ pre key ses suf,
      kvScan st.events (makePrefix d t ++ [':']) = pre ++ (key, ses) :: suf
      ∧ totalLen pre ≤ limit ∧ limit < totalLen pre + ses.length
      ∧ (DlqStore.popBatch st now d t limit).1
          = (scannedEvents now st (makePrefix d t ++ [':'])).take limit
      ∧ (DlqStore.popBatch st now d t limit).1.length = limit
      ∧ (DlqStore.popBatch st now d t limit).2.events
          = (st.events.map (fun kv => if kv.1 = key then
              (key, ((ses.map (eventOfSer now)).drop (limit - totalLen pre)).map
                serEvent)
            else kv)).filter
            (fun kv => decide (kv.1 ∉ pre.map Prod.fst))
      ∧ (DlqStore.popBatch st now d t limit).2.metadata
          = (updateCountMetadata st d t (metaCount st d t - limit)).metadata := by
  obtain ⟨hsorted, hvals⟩ := hwf
  have hscan := kvScan_scope_eq st d t hscope
  have hvals' : ∀ kv ∈ kvScan st.events (makePrefix d t), kv.2 ≠ [] :=
    fun kv hkv => hvals kv (List.mem_of_mem_filter hkv)
  have hover' : limit < 0 + totalLen (kvScan st.events (makePrefix d t)) := by
    rw [hscan]
    omega
  obtain ⟨pre, key, ses, suf, hdec, hb1, hb2, hploop⟩ :=
    popLoop_over now limit (kvScan st.events (makePrefix d t)) 0 hvals'
      (Nat.zero_le _) hover'
  rw [Nat.zero_add] at hb1 hb2
  rw [Nat.zero_add] at hploop
  have hmem_scan : (key, ses) ∈ kvScan st.events (makePrefix d t) := by
    rw [hdec]
    exact List.mem_append_right _ (List.mem_cons_self _ _)
  have hmem : (key, ses) ∈ st.events := List.mem_of_mem_filter hmem_scan
  -- the three computed pieces of pop_batch
  have hcol : (DlqStore.popBatch st now d t limit).1
      = pre.flatMap (fun kv => kv.2.map (eventOfSer now))
        ++ (ses.map (eventOfSer now)).take (limit - totalLen pre) := by
    simp only [DlqStore.popBatch, hploop]
  have hcollen : (DlqStore.popBatch st now d t limit).1.length = limit := by
    rw [hcol]
    rw [List.length_append, length_flatMap_conv, List.length_take, List.length_map]
    omega
  have hevents : (DlqStore.popBatch st now d t limit).2.events
      = (st.events.map (fun kv => if kv.1 = key then
          (key, ((ses.map (eventOfSer now)).drop (limit - totalLen pre)).map serEvent)
        else kv)).filter
        (fun kv => decide (kv.1 ∉ pre.map Prod.fst)) := by
    simp only [DlqStore.popBatch, hploop, updateCountMetadata_events]
    rw [kvInsert_eq_map_of_mem _ _ ses st.events hsorted hmem]
    rw [foldl_kvRemove_eq_filter]
  have hmeta : (DlqStore.popBatch st now d t limit).2.metadata
      = (updateCountMetadata st d t (metaCount st d t - limit)).metadata := by
    have hlen' : (pre.flatMap (fun kv => kv.2.map (eventOfSer now))
        ++ (ses.map (eventOfSer now)).take (limit - totalLen pre)).length = limit := by
      rw [List.length_append, length_flatMap_conv, List.length_take, List.length_map]
      omega
    simp only [DlqStore.popBatch, hploop]
    rw [hlen']
    apply updateCountMetadata_metadata_congr
    rfl
  refine ⟨pre, key, ses, suf, hscan ▸ hdec, hb1, hb2, ?_, hcollen, hevents, hmeta⟩
  -- the returned batch is the limit-prefix of the in-scope events
  have hflat : scannedEvents now st (makePrefix d t ++ [':'])
      = pre.flatMap (fun kv => kv.2.map (eventOfSer now))
        ++ (ses.map (eventOfSer now)
            ++ suf.flatMap (fun kv => kv.2.map (eventOfSer now))) := by
    rw [scannedEvents, ← hscan, hdec]
    simp [List.flatMap_append, List.flatMap_cons]
  have hrhs : (scannedEvents now st (makePrefix d t ++ [':'])).take limit
      = pre.flatMap (fun kv => kv.2.map (eventOfSer now))
        ++ (ses.map (eventOfSer now)).take (limit - totalLen pre) := by
    rw [hflat, List.take_append_eq_append_take]
    congr 1
    · exact List.take_of_length_le (by rw [length_flatMap_conv]; exact hb1)
    · rw [length_flatMap_conv,
        List.take_append_of_le_length (by rw [List.length_map]; omega)]
  rw [hcol, hrhs]

/-- Characterisation of an underflowing `pop_batch` (everything in scope fits
within `limit`): all matched entries are drained and deleted. -/
theorem popBatch_all_spec (st : DlqState) (now : Int) (d : Int) (t : String)
    (limit : Nat) (hwf : st.WF)
    (hscope : ∀ kv ∈ st.events, keyStartsWith kv.1 (makePrefix d t) = true →
      keyStartsWith kv.1 (makePrefix d t ++ [':']) = true)
    (hunder : totalLen (kvScan st.events (makePrefix d t ++ [':'])) ≤ limit) :
    (DlqStore.popBatch st now d t limit).1
      = scannedEvents now st (makePrefix d t ++ [':'])
    ∧ (DlqStore.popBatch st now d t limit).2.events
        = st.events.filter (fun kv =>
            decide (kv.1 ∉ (kvScan st.events (makePrefix d t ++ [':'])).map Prod.fst))
    ∧ (DlqStore.popBatch st now d t limit).2.metadata
        = (updateCountMetadata st d t
            (metaCount st d t
              - totalLen (kvScan st.events (makePrefix d t ++ [':'])))).metadata := by
  obtain ⟨hsorted, hvals⟩ := hwf
  have hscan := kvScan_scope_eq st d t hscope
  have hvals' : ∀ kv ∈ kvScan st.events (makePrefix d t), kv.2 ≠ [] :=
    fun kv hkv => hvals kv (List.mem_of_mem_filter hkv)
  have hunder' : 0 + totalLen (kvScan st.events (makePrefix d t)) ≤ limit := by
    rw [hscan]
    omega
  have hploop := popLoop_all now limit (kvScan st.events (makePrefix d t)) 0
    hvals' hunder'
  rw [hscan] at hploop
  refine ⟨?_, ?_, ?_⟩
  · simp only [DlqStore.popBatch, hscan, hploop, scannedEvents]
  · simp only [DlqStore.popBatch, hscan, hploop, updateCountMetadata_events,
      foldl_kvRemove_eq_filter]
  · simp only [DlqStore.popBatch, hscan, hploop]
    rw [length_flatMap_conv]
    apply updateCountMetadata_metadata_congr
    rfl

theorem kvFind?_of_mem_nodup {V : Type} {kv : Key × V} :
    ∀ {l : List (Key × V)}, (l.map Prod.fst).Nodup → kv ∈ l →
      kvFind? l kv.1 = some kv.2 := by
  intro l
  induction l with
  | nil => intro _ h; simp at h
  | cons kv0 t ih =>
    intro hnd hmem
    rw [List.map_cons, List.nodup_cons] at hnd
    rcases List.mem_cons.mp hmem with heq | hmem'
    · subst heq
      simp [kvFind?]
    · have hne : ¬(kv.1 = kv0.1) := by
        intro he
        exact hnd.1 (he ▸ List.mem_map_of_mem Prod.fst hmem')
      simp [kvFind?, hne, ih hnd.2 hmem']

theorem kvFind?_map_replace_self {V : Type} (key : Key) (rem : V) :
    ∀ l : List (Key × V),
      kvFind? (l.map (fun kv => if kv.1 = key then (key, rem) else kv)) key
        = (kvFind? l key).map (fun _ => rem)
  | [] => rfl
  | (k0, v0) :: t => by
    simp only [List.map_cons]
    by_cases h : k0 = key
    · subst h
      rw [show (if ((k0, v0) : Key × V).1 = k0 then ((k0, rem) : Key × V)
            else (k0, v0)) = (k0, rem) from if_pos rfl]
      simp [kvFind?]
    · have h' : ¬(key = k0) := fun he => h he.symm
      rw [show (if ((k0, v0) : Key × V).1 = key then ((key, rem) : Key × V)
            else (k0, v0)) = (k0, v0) from if_neg h]
      simp [kvFind?, h', kvFind?_map_replace_self key rem t]

theorem kvFind?_map_replace_ne {V : Type} (key : Key) (rem : V) {k : Key}
    (hk : ¬(k = key)) :
    ∀ l : List (Key × V),
      kvFind? (l.map (fun kv => if kv.1 = key then (key, rem) else kv)) k
        = kvFind? l k
  | [] => rfl
  | (k0, v0) :: t => by
    simp only [List.map_cons]
    by_cases h : k0 = key
    · rw [show (if ((k0, v0) : Key × V).1 = key then ((key, rem) : Key × V)
            else (k0, v0)) = (key, rem) from if_pos h]
      have hke : ¬(k = k0) := fun he => hk (he.trans h)
      simp [kvFind?, hk, hke, kvFind?_map_replace_ne key rem hk t]
    · rw [show (if ((k0, v0) : Key × V).1 = key then ((key, rem) : Key × V)
            else (k0, v0)) = (k0, v0) from if_neg h]
      by_cases hke : k = k0
      · simp [kvFind?, hke]
      · simp [kvFind?, hke, kvFind?_map_replace_ne key rem hk t]

theorem kvFind?_filter_of_fail {V : Type} {g : Key × V → Bool} {k : Key} :
    ∀ {l : List (Key × V)}, (∀ kv ∈ l, kv.1 = k → g kv = false) →
      kvFind? (l.filter g) k = none := by
  intro l
  induction l with
  | nil => intro _; rfl
  | cons kv0 t ih =>
    intro h
    rw [List.filter_cons]
    by_cases hg : g kv0 = true
    · have hk0 : ¬(k = kv0.1) := by
        intro he
        rw [h kv0 (List.mem_cons_self _ _) he.symm] at hg
        exact Bool.false_ne_true hg
      simp only [hg, if_pos, kvFind?, if_neg hk0]
      exact ih (fun kv hkv => h kv (List.mem_cons_of_mem _ hkv))
    · simp only [Bool.not_eq_true] at hg
      simp only [hg, Bool.false_eq_true, if_neg, ite_false]
      exact ih (fun kv hkv => h kv (List.mem_cons_of_mem _ hkv))

theorem kvFind?_filter_of_pass {V : Type} {g : Key × V → Bool} {k : Key} :
    ∀ {l : List (Key × V)}, (∀ kv ∈ l, kv.1 = k → g kv = true) →
      kvFind? (l.filter g) k = kvFind? l k := by
  intro l
  induction l with
  | nil => intro _; rfl
  | cons kv0 t ih =>
    intro h
    rw [List.filter_cons]
    by_cases hk0 : k = kv0.1
    · have hg : g kv0 = true := h kv0 (List.mem_cons_self _ _) hk0.symm
      simp [hg, kvFind?, hk0]
    · by_cases hg : g kv0 = true
      · simp only [hg, if_pos, kvFind?, if_neg hk0]
        exact ih (fun kv hkv => h kv (List.mem_cons_of_mem _ hkv))
      · simp only [Bool.not_eq_true] at hg
        simp only [hg, Bool.false_eq_true, if_neg, ite_false, kvFind?, if_neg hk0]
        exact ih (fun kv hkv => h kv (List.mem_cons_of_mem _ hkv))

/-! ## C3 — oversized pop, amended -/

/-- **C3 amended.** `pop_batch(dest, table, limit)` scans the prefix
`"{dest}:{table}"` without a trailing separator, so entries of any other table
whose key extends that prefix are also in scope (see `C3_counterexample`).
Restricted to stores where every key matching the separator-less prefix lies
under `"{dest}:{table}:"`, the claim holds: when the entries under
`"{dest}:{table}:"` hold more than `limit` events, exactly `limit` events are
returned — the oldest first, preserving entry (key) order —, the unreturned
remainder of the partially consumed entry is rewritten under that entry's
original key, only fully consumed entries are deleted (all other entries keep
their values), and the metadata counter is decremented by exactly the number of
events returned. -/
theorem C3_oversized_pop_amended (st : DlqState) (now : Int) (d : Int)
    (t : String) (limit : Nat) (hwf : st.WF)
    (hscope : ∀ kv ∈ st.events, keyStartsWith kv.1 (makePrefix d t) = true →
      keyStartsWith kv.1 (makePrefix d t ++ [':']) = true)
    (hinv : metaCount st d t = reachableCount st d t)
    (hover : limit < reachableCount st d t) :
    (DlqStore.popBatch st now d t limit).1
      = (scannedEvents now st (makePrefix d t ++ [':'])).take limit
    ∧ (DlqStore.popBatch st now d t limit).1.length = limit
    ∧ limit < metaCount st d t
    ∧ metaCount (DlqStore.popBatch st now d t limit).2 d t = metaCount st d t - limit
    ∧ ∃ pre key ses suf,
        kvScan st.events (makePrefix d t ++ [':']) = pre ++ (key, ses) :: suf
        ∧ (∀ k ∈ pre.map Prod.fst,
            kvFind? (DlqStore.popBatch st now d t limit).2.events k = none)
        ∧ kvFind? (DlqStore.popBatch st now d t limit).2.events key
            = some (((ses.map (eventOfSer now)).drop (limit - totalLen pre)).map
                serEvent)
        ∧ (∀ kv ∈ st.events, kv.1 ∉ pre.map Prod.fst → ¬(kv.1 = key) →
            kvFind? (DlqStore.popBatch st now d t limit).2.events kv.1
              = some kv.2) := by
  have hover' : limit < totalLen (kvScan st.events (makePrefix d t ++ [':'])) := by
    rw [reachableCount] at hover
    simpa [totalLen] using hover
  obtain ⟨pre, key, ses, suf, hdec, hb1, hb2, hcol, hcollen, hevents, hmeta⟩ :=
    popBatch_over_spec st now d t limit hwf hscope hover'
  have hnd : (st.events.map Prod.fst).Nodup := nodup_keys_of_sorted hwf.1
  have hnd_scan : ((kvScan st.events (makePrefix d t ++ [':'])).map Prod.fst).Nodup :=
    hnd.sublist ((List.filter_sublist _).map Prod.fst)
  have hnd_dec : (pre.map Prod.fst ++ key :: suf.map Prod.fst).Nodup := by
    have : (pre ++ (key, ses) :: suf).map Prod.fst
        = pre.map Prod.fst ++ key :: suf.map Prod.fst := by
      simp
    rw [hdec, this] at hnd_scan
    exact hnd_scan
  have hkeypre : key ∉ pre.map Prod.fst := by
    have hdisj := (List.nodup_append.mp hnd_dec).2.2
    intro hk
    exact hdisj hk (List.mem_cons_self _ _)
  have hmemkey : (key, ses) ∈ st.events := by
    have : (key, ses) ∈ kvScan st.events (makePrefix d t ++ [':']) := by
      rw [hdec]
      exact List.mem_append_right _ (List.mem_cons_self _ _)
    exact List.mem_of_mem_filter this
  have hmetacount : metaCount (DlqStore.popBatch st now d t limit).2 d t
      = metaCount st d t - limit := by
    have : metaCount (DlqStore.popBatch st now d t limit).2 d t
        = metaCount (updateCountMetadata st d t (metaCount st d t - limit)) d t := by
      simp [metaCount, getStoredCount, hmeta]
    rw [this, metaCount_update_self]
  have hlimlt : limit < metaCount st d t := by
    rw [hinv]
    exact hover
  refine ⟨hcol, hcollen, hlimlt, hmetacount, pre, key, ses, suf, hdec, ?_, ?_, ?_⟩
  · -- fully consumed entries are deleted
    intro k hk
    rw [hevents]
    apply kvFind?_filter_of_fail
    intro kv _ hkv
    simp [hkv, hk]
  · -- the split entry is rewritten in place with the remainder
    rw [hevents]
    rw [kvFind?_filter_of_pass (by
      intro kv _ hkv
      simp [hkv, hkeypre])]
    rw [kvFind?_map_replace_self]
    rw [kvFind?_of_mem_nodup hnd hmemkey]
    rfl
  · -- every other entry keeps its value
    intro kv hkv hkpre hkkey
    rw [hevents]
    rw [kvFind?_filter_of_pass (by
      intro kv' _ hkv'
      simp [hkv', hkpre])]
    rw [kvFind?_map_replace_ne _ _ hkkey]
    exact kvFind?_of_mem_nodup hnd hkv

/-- Witness for C3 (amended): a two-event entry popped with limit 1 returns
exactly the oldest event and leaves the remainder under the original key. -/
theorem C3_oversized_pop_amended_witness :
    (DlqStore.popBatch
        (DlqStore.push DlqState.empty 1 "a" ['1'] ['u']
          [.insert 20 [] 0 0, .insert 30 [] 0 0]) 0 1 "a" 1).1
      = (scannedEvents 0
          (DlqStore.push DlqState.empty 1 "a" ['1'] ['u']
            [.insert 20 [] 0 0, .insert 30 [] 0 0])
          (makePrefix 1 "a" ++ [':'])).take 1
    ∧ (DlqStore.popBatch
        (DlqStore.push DlqState.empty 1 "a" ['1'] ['u']
          [.insert 20 [] 0 0, .insert 30 [] 0 0]) 0 1 "a" 1).1.length = 1 :=
  have h := C3_oversized_pop_amended
    (DlqStore.push DlqState.empty 1 "a" ['1'] ['u']
      [.insert 20 [] 0 0, .insert 30 [] 0 0]) 0 1 "a" 1
    (by constructor
        · decide
        · decide)
    (by decide) (by decide) (by decide)
  ⟨h.1, h.2.1⟩

/-! ## C4 — metadata-count invariant, amended -/

/-- `metaCount` only reads the metadata keyspace. -/
theorem metaCount_congr {st st' : DlqState} (d : Int) (t : String)
    (h : st.metadata = st'.metadata) : metaCount st d t = metaCount st' d t := by
  simp [metaCount, getStoredCount, h]

/-- `reachableCount` unfolds to `totalLen` of the with-separator scan. -/
theorem reachableCount_eq (st : DlqState) (d : Int) (t : String) :
    reachableCount st d t
      = totalLen (kvScan st.events (makePrefix d t ++ [':'])) := rfl

/-- With distinct keys, an entry is determined by its key. -/
theorem mem_eq_of_nodup_keys {V : Type} {l : List (Key × V)}
    (hnd : (l.map Prod.fst).Nodup) {kv kv' : Key × V} (h1 : kv ∈ l)
    (h2 : kv' ∈ l) (hk : kv.1 = kv'.1) : kv = kv' := by
  have hf := kvFind?_of_mem_nodup hnd h1
  have hf' := kvFind?_of_mem_nodup hnd h2
  rw [hk, hf'] at hf
  have hv : kv'.2 = kv.2 := by injection hf
  exact Prod.ext_iff.mpr ⟨hk, hv.symm⟩

/-- `Nat.digitChar` never emits the key separator `':'`. -/
theorem digitChar_ne_colon : ∀ (n : Nat), Nat.digitChar n ≠ ':'
  | 0 | 1 | 2 | 3 | 4 | 5 | 6 | 7 | 8 | 9 | 10 | 11 | 12 | 13 | 14 | 15 => by decide
  | n + 16 => by
    simp only [Nat.digitChar]
    rw [if_neg (show ¬(n + 16 = 0) by omega), if_neg (show ¬(n + 16 = 1) by omega),
        if_neg (show ¬(n + 16 = 2) by omega), if_neg (show ¬(n + 16 = 3) by omega),
        if_neg (show ¬(n + 16 = 4) by omega), if_neg (show ¬(n + 16 = 5) by omega),
        if_neg (show ¬(n + 16 = 6) by omega), if_neg (show ¬(n + 16 = 7) by omega),
        if_neg (show ¬(n + 16 = 8) by omega), if_neg (show ¬(n + 16 = 9) by omega),
        if_neg (show ¬(n + 16 = 10) by omega), if_neg (show ¬(n + 16 = 11) by omega),
        if_neg (show ¬(n + 16 = 12) by omega), if_neg (show ¬(n + 16 = 13) by omega),
        if_neg (show ¬(n + 16 = 14) by omega), if_neg (show ¬(n + 16 = 15) by omega)]
    decide

/-- `Nat.toDigitsCore` only prepends digit characters. -/
theorem toDigitsCore_colon (b : Nat) :
    ∀ (f n : Nat) (acc : List Char), ':' ∉ acc →
      ':' ∉ Nat.toDigitsCore b f n acc := by
  intro f
  induction f with
  | zero => intro n acc hacc; simpa [Nat.toDigitsCore] using hacc
  | succ f ih =>
    intro n acc hacc
    unfold Nat.toDigitsCore
    dsimp only
    split
    · intro hmem
      rcases List.mem_cons.mp hmem with h | h
      · exact digitChar_ne_colon _ h.symm
      · exact hacc h
    · apply ih
      intro hmem
      rcases List.mem_cons.mp hmem with h | h
      · exact digitChar_ne_colon _ h.symm
      · exact hacc h

/-- A rendered natural number contains no `':'`. -/
theorem nat_repr_colon (n : Nat) : ':' ∉ (Nat.repr n).data := by
  show ':' ∉ (Nat.toDigits 10 n).asString.data
  have h : (Nat.toDigits 10 n).asString.data = Nat.toDigits 10 n := rfl
  rw [h]
  exact toDigitsCore_colon 10 (n + 1) n [] (by simp)

/-- A rendered `pipeline_dest_id` contains no `':'`: the key format's
destination segment cannot collide with the separator. -/
theorem int_toString_colon (d : Int) : ':' ∉ (toString d).data := by
  show ':' ∉ (Int.repr d).data
  cases d with
  | ofNat m => exact nat_repr_colon m
  | negSucc m =>
    show ':' ∉ ("-" ++ Nat.repr (m + 1)).data
    rw [String.data_append]
    intro hmem
    rcases List.mem_append.mp hmem with h | h
    · simp at h
    · exact nat_repr_colon _ h

/-- A true `keyStartsWith` exhibits the key as prefix plus remainder. -/
theorem keyStartsWith_ex : ∀ {k p : Key}, keyStartsWith k p = true →
    ∃ r, k = p ++ r := by
  intro k p
  induction p generalizing k with
  | nil => intro _; exact ⟨k, rfl⟩
  | cons q p ih =>
    intro h
    cases k with
    | nil => simp [keyStartsWith] at h
    | cons c k =>
      simp only [keyStartsWith, Bool.and_eq_true, beq_iff_eq] at h
      obtain ⟨r, hr⟩ := ih h.2
      exact ⟨r, by simp [h.1, hr]⟩

/-- Two separator-free segments closed by `':'` split a list the same way. -/
theorem colon_seg_eq : ∀ {a b r s : List Char}, ':' ∉ a → ':' ∉ b →
    a ++ ':' :: r = b ++ ':' :: s → a = b ∧ r = s := by
  intro a
  induction a with
  | nil =>
    intro b r s _ hb he
    cases b with
    | nil => simpa using he
    | cons c b =>
      simp only [List.nil_append, List.cons_append, List.cons.injEq] at he
      exact absurd (List.mem_cons_self c b) (he.1 ▸ hb)
  | cons c a ih =>
    intro b r s ha hb he
    cases b with
    | nil =>
      simp only [List.nil_append, List.cons_append, List.cons.injEq] at he
      exact absurd (List.mem_cons_self c a) (he.1 ▸ ha)
    | cons c2 b =>
      simp only [List.cons_append, List.cons.injEq] at he
      have ha' : ':' ∉ a := fun h => ha (List.mem_cons_of_mem _ h)
      have hb' : ':' ∉ b := fun h => hb (List.mem_cons_of_mem _ h)
      obtain ⟨h1, h2⟩ := ih ha' hb' he.2
      exact ⟨by rw [he.1, h1], h2⟩

/-- For separator-free table names the with-separator pair prefixes are
unambiguous: if `makePrefix d' t' ++ ":"` heads a key of canonical shape
`makePrefix d0 t0 ++ ":" ++ rest`, the two pair prefixes coincide. -/
theorem makePrefix_alias {d0 d' : Int} {t0 t' : String} (ht0 : ':' ∉ t0.data)
    (ht' : ':' ∉ t'.data) (r : List Char)
    (h : keyStartsWith (makePrefix d0 t0 ++ ':' :: r) (makePrefix d' t' ++ [':']) = true) :
    makePrefix d' t' = makePrefix d0 t0 := by
  obtain ⟨r2, hr2⟩ := keyStartsWith_ex h
  simp only [makePrefix, List.append_assoc, List.cons_append, List.nil_append] at hr2
  obtain ⟨hd, hrest⟩ := colon_seg_eq (int_toString_colon d0) (int_toString_colon d') hr2
  obtain ⟨ht, _⟩ := colon_seg_eq ht0 ht' hrest
  simp [makePrefix, hd, ht]

/-- `push` preserves the per-pair count invariant over separator-free table
names, provided the pushed table name is separator-free and the timestamped key
is fresh. -/
theorem push_preserves_countInvariant (st : DlqState) (d : Int) (t : String)
    (ts uuid : List Char) (events : List Event) (ht : ':' ∉ t.data)
    (hfresh : mkEventKey d t ts uuid ∉ st.events.map Prod.fst)
    (hinv : countInvariantCF st) :
    countInvariantCF (DlqStore.push st d t ts uuid events) := by
  by_cases hev : events = []
  · simpa [DlqStore.push, hev] using hinv
  intro d' t' ht'
  have hpush : DlqStore.push st d t ts uuid events
      = updateCountMetadata
          ⟨kvInsert (mkEventKey d t ts uuid) (events.map serEvent) st.events,
           st.metadata⟩
          d t (getStoredCount st d t + events.length) := by
    simp [DlqStore.push, hev, getStoredCount]
  have hperm := kvInsert_perm (mkEventKey d t ts uuid) (events.map serEvent)
    st.events hfresh
  have hreach : ∀ (q : Key),
      totalLen (kvScan (kvInsert (mkEventKey d t ts uuid)
          (events.map serEvent) st.events) q)
        = (if keyStartsWith (mkEventKey d t ts uuid) q then events.length else 0)
          + totalLen (kvScan st.events q) := by
    intro q
    simp only [kvScan]
    rw [totalLen_perm (hperm.filter _), List.filter_cons]
    by_cases hq : keyStartsWith (mkEventKey d t ts uuid) q = true
    · simp [hq, totalLen_cons]
    · simp only [Bool.not_eq_true] at hq
      simp [hq]
  have hevents : (DlqStore.push st d t ts uuid events).events
      = kvInsert (mkEventKey d t ts uuid) (events.map serEvent) st.events := by
    rw [hpush, updateCountMetadata_events]
  by_cases hpq : makePrefix d' t' = makePrefix d t
  · -- the pushed pair itself (up to prefix identity)
    have hkeyq : mkCountKey d' t' = mkCountKey d t := by
      simp [mkCountKey, hpq]
    have hmc : metaCount (DlqStore.push st d t ts uuid events) d' t'
        = getStoredCount st d t + events.length := by
      rw [hpush]
      rw [show ∀ st2 : DlqState, metaCount st2 d' t' = metaCount st2 d t from
        fun st2 => by simp [metaCount, getStoredCount, hkeyq]]
      exact metaCount_update_self _ _ _ _
    rw [hmc, reachableCount_eq, hevents, hreach, hpq, mkEventKey_startsWith_colon]
    have hr := hinv d t ht
    rw [reachableCount_eq] at hr
    have hmeq : metaCount st d t = getStoredCount st d t := rfl
    simp only [if_pos]
    omega
  · -- any other pair: untouched on both sides
    have hkeyq : ¬(mkCountKey d' t' = mkCountKey d t) := mkCountKey_ne hpq
    have hmc : metaCount (DlqStore.push st d t ts uuid events) d' t'
        = metaCount st d' t' := by
      rw [hpush, metaCount_update_ne _ _ hkeyq]
      exact metaCount_congr d' t' rfl
    have hnostart : ¬(keyStartsWith (mkEventKey d t ts uuid)
        (makePrefix d' t' ++ [':']) = true) :=
      fun hs => hpq (makePrefix_alias ht ht' (ts ++ ':' :: uuid) hs)
    rw [hmc, reachableCount_eq, hevents, hreach]
    simp only [Bool.not_eq_true] at hnostart
    rw [hnostart]
    have hr := hinv d' t' ht'
    rw [reachableCount_eq] at hr
    simpa using hr

/-- `pop_batch` preserves the per-pair count invariant over separator-free
table names, provided the popped table name is separator-free, every stored key
is of the canonical `"dest:table:..."` shape with a separator-free table, and
no stored key under the separator-less scan prefix escapes the popped pair's
with-separator prefix (the C3 aliasing condition). -/
theorem popBatch_preserves_countInvariant (st : DlqState) (now : Int) (d : Int)
    (t : String) (limit : Nat) (hwf : st.WF) (ht : ':' ∉ t.data)
    (hscope : ∀ kv ∈ st.events, keyStartsWith kv.1 (makePrefix d t) = true →
      keyStartsWith kv.1 (makePrefix d t ++ [':']) = true)
    (hcanon : ∀ kv ∈ st.events, ∃ (d0 : Int) (t0 : String) (r : List Char),
      ':' ∉ t0.data ∧ kv.1 = makePrefix d0 t0 ++ ':' :: r)
    (hinv : countInvariantCF st) :
    countInvariantCF (DlqStore.popBatch st now d t limit).2 := by
  have halias : ∀ kv ∈ st.events, ∀ (d' : Int) (t' : String), ':' ∉ t'.data →
      keyStartsWith kv.1 (makePrefix d t ++ [':']) = true →
      keyStartsWith kv.1 (makePrefix d' t' ++ [':']) = true →
      makePrefix d' t' = makePrefix d t := by
    intro kv hkv d' t' ht' hp1 hp2
    obtain ⟨d0, t0, r, ht0, hkey⟩ := hcanon kv hkv
    rw [hkey] at hp1 hp2
    rw [makePrefix_alias ht0 ht' r hp2, makePrefix_alias ht0 ht r hp1]
  intro d' t' ht'
  have hnd : (st.events.map Prod.fst).Nodup := nodup_keys_of_sorted hwf.1
  have hinvdt := hinv d t ht
  rw [reachableCount_eq] at hinvdt
  by_cases hcase : totalLen (kvScan st.events (makePrefix d t ++ [':'])) ≤ limit
  · -- everything in scope is drained
    obtain ⟨hcol, hevents, hmeta⟩ := popBatch_all_spec st now d t limit hwf hscope hcase
    by_cases hpq : makePrefix d' t' = makePrefix d t
    · have hkeyq : mkCountKey d' t' = mkCountKey d t := by simp [mkCountKey, hpq]
      have hmc : metaCount (DlqStore.popBatch st now d t limit).2 d' t' = 0 := by
        rw [show ∀ st2 : DlqState, metaCount st2 d' t' = metaCount st2 d t from
          fun st2 => by simp [metaCount, getStoredCount, hkeyq]]
        rw [metaCount_congr d t hmeta, metaCount_update_self]
        omega
      rw [hmc, reachableCount_eq, hevents]
      have hq : makePrefix d' t' ++ [':'] = makePrefix d t ++ [':'] := by rw [hpq]
      rw [hq, kvScan_filter]
      have hnil : (kvScan st.events (makePrefix d t ++ [':'])).filter
          (fun kv => decide
            (kv.1 ∉ (kvScan st.events (makePrefix d t ++ [':'])).map Prod.fst))
          = [] := by
        rw [List.filter_eq_nil_iff]
        intro kv hkv
        simp only [decide_eq_true_eq, Decidable.not_not]
        exact List.mem_map_of_mem Prod.fst hkv
      rw [hnil]
      rfl
    · have hkeyq : ¬(mkCountKey d' t' = mkCountKey d t) := mkCountKey_ne hpq
      have hmc : metaCount (DlqStore.popBatch st now d t limit).2 d' t'
          = metaCount st d' t' := by
        rw [metaCount_congr d' t' hmeta, metaCount_update_ne _ _ hkeyq]
      rw [hmc, reachableCount_eq, hevents, kvScan_filter]
      have hid : (kvScan st.events (makePrefix d' t' ++ [':'])).filter
          (fun kv => decide
            (kv.1 ∉ (kvScan st.events (makePrefix d t ++ [':'])).map Prod.fst))
          = kvScan st.events (makePrefix d' t' ++ [':']) := by
        rw [List.filter_eq_self]
        intro kv hkv
        simp only [decide_eq_true_eq]
        intro hmem
        obtain ⟨kv', hkv', hk'⟩ := List.mem_map.mp hmem
        have hkv'mem : kv' ∈ st.events := List.mem_of_mem_filter hkv'
        have hkveq : kv' = kv := mem_eq_of_nodup_keys hnd hkv'mem
          (List.mem_of_mem_filter hkv) hk'
        subst hkveq
        have hpre1 : keyStartsWith kv'.1 (makePrefix d t ++ [':']) = true :=
          (List.mem_filter.mp hkv').2
        have hpre2 : keyStartsWith kv'.1 (makePrefix d' t' ++ [':']) = true :=
          (List.mem_filter.mp hkv).2
        exact hpq (halias kv' hkv'mem d' t' ht' hpre1 hpre2)
      rw [hid]
      have hr := hinv d' t' ht'
      rw [reachableCount_eq] at hr
      exact hr.symm ▸ hr ▸ rfl
  · -- an entry is split
    push_neg at hcase
    obtain ⟨pre, key, ses, suf, hdec, hb1, hb2, hcol, hcollen, hevents, hmeta⟩ :=
      popBatch_over_spec st now d t limit hwf hscope hcase
    have hnd_scan : ((kvScan st.events (makePrefix d t ++ [':'])).map Prod.fst).Nodup :=
      hnd.sublist ((List.filter_sublist _).map Prod.fst)
    have hnd_dec : (pre.map Prod.fst ++ key :: suf.map Prod.fst).Nodup := by
      have hsh : (pre ++ (key, ses) :: suf).map Prod.fst
          = pre.map Prod.fst ++ key :: suf.map Prod.fst := by simp
      rw [hdec, hsh] at hnd_scan
      exact hnd_scan
    obtain ⟨hnd_pre, hnd_tail, hdisj⟩ := List.nodup_append.mp hnd_dec
    have hkeypre : key ∉ pre.map Prod.fst :=
      fun hk => hdisj hk (List.mem_cons_self _ _)
    have hsufpre : ∀ k ∈ suf.map Prod.fst, k ∉ pre.map Prod.fst :=
      fun k hk hkp => hdisj hkp (List.mem_cons_of_mem _ hk)
    have hkeysuf : key ∉ suf.map Prod.fst := (List.nodup_cons.mp hnd_tail).1
    have hmemkey : (key, ses) ∈ kvScan st.events (makePrefix d t ++ [':']) := by
      rw [hdec]
      exact List.mem_append_right _ (List.mem_cons_self _ _)
    have hkeypC : keyStartsWith key (makePrefix d t ++ [':']) = true :=
      (List.mem_filter.mp hmemkey).2
    by_cases hpq : makePrefix d' t' = makePrefix d t
    · -- the popped pair: count drops by exactly the number of events returned
      have hkeyq : mkCountKey d' t' = mkCountKey d t := by simp [mkCountKey, hpq]
      have hmc : metaCount (DlqStore.popBatch st now d t limit).2 d' t'
          = metaCount st d t - limit := by
        rw [show ∀ st2 : DlqState, metaCount st2 d' t' = metaCount st2 d t from
          fun st2 => by simp [metaCount, getStoredCount, hkeyq]]
        rw [metaCount_congr d t hmeta, metaCount_update_self]
      rw [hmc, reachableCount_eq, hevents]
      have hq : makePrefix d' t' ++ [':'] = makePrefix d t ++ [':'] := by rw [hpq]
      rw [hq, kvScan_filter, kvScan_map_replace, hdec]
      rw [List.map_append, List.map_cons]
      have hmappre : pre.map (fun kv => if kv.1 = key then
          (key, ((ses.map (eventOfSer now)).drop (limit - totalLen pre)).map serEvent)
          else kv) = pre := by
        have hp : ∀ kv ∈ pre, (if kv.1 = key then
            (key, ((ses.map (eventOfSer now)).drop (limit - totalLen pre)).map serEvent)
            else kv) = kv := by
          intro kv hkv
          have : ¬(kv.1 = key) := fun he =>
            hkeypre (he ▸ List.mem_map_of_mem Prod.fst hkv)
          simp [this]
        calc pre.map _ = pre.map id := List.map_congr_left hp
          _ = pre := List.map_id pre
      have hmapsuf : suf.map (fun kv => if kv.1 = key then
          (key, ((ses.map (eventOfSer now)).drop (limit - totalLen pre)).map serEvent)
          else kv) = suf := by
        have hp : ∀ kv ∈ suf, (if kv.1 = key then
            (key, ((ses.map (eventOfSer now)).drop (limit - totalLen pre)).map serEvent)
            else kv) = kv := by
          intro kv hkv
          have : ¬(kv.1 = key) := fun he =>
            hkeysuf (he ▸ List.mem_map_of_mem Prod.fst hkv)
          simp [this]
        calc suf.map _ = suf.map id := List.map_congr_left hp
          _ = suf := List.map_id suf
      have hmapkey : (if ((key, ses) : Key × List SerializableEvent).1 = key then
          ((key, ((ses.map (eventOfSer now)).drop (limit - totalLen pre)).map
            serEvent) : Key × List SerializableEvent)
          else (key, ses))
          = (key, ((ses.map (eventOfSer now)).drop (limit - totalLen pre)).map
            serEvent) := if_pos rfl
      rw [hmappre, hmapsuf, hmapkey]
      rw [List.filter_append, List.filter_cons]
      have hfpre : pre.filter (fun kv => decide (kv.1 ∉ pre.map Prod.fst)) = [] := by
        rw [List.filter_eq_nil_iff]
        intro kv hkv
        simp only [decide_eq_true_eq, Decidable.not_not]
        exact List.mem_map_of_mem Prod.fst hkv
      have hfsuf : suf.filter (fun kv => decide (kv.1 ∉ pre.map Prod.fst)) = suf := by
        rw [List.filter_eq_self]
        intro kv hkv
        simp only [decide_eq_true_eq]
        exact hsufpre kv.1 (List.mem_map_of_mem Prod.fst hkv)
      rw [hfpre, hfsuf]
      rw [if_pos (by simp [hkeypre] : (decide (key ∉ pre.map Prod.fst)) = true)]
      have hrem : (((ses.map (eventOfSer now)).drop (limit - totalLen pre)).map
          serEvent).length = ses.length - (limit - totalLen pre) := by
        simp
      rw [List.nil_append, totalLen_cons]
      simp only [hrem]
      rw [hdec] at hinvdt
      simp [totalLen_append, totalLen_cons] at hinvdt
      omega
    · -- any other pair: untouched
      have hkeyq : ¬(mkCountKey d' t' = mkCountKey d t) := mkCountKey_ne hpq
      have hmc : metaCount (DlqStore.popBatch st now d t limit).2 d' t'
          = metaCount st d' t' := by
        rw [metaCount_congr d' t' hmeta, metaCount_update_ne _ _ hkeyq]
      rw [hmc, reachableCount_eq, hevents, kvScan_filter, kvScan_map_replace]
      have hnokey : ∀ kv ∈ kvScan st.events (makePrefix d' t' ++ [':']),
          ¬(kv.1 = key) := by
        intro kv hkv he
        have hkvmem : kv ∈ st.events := List.mem_of_mem_filter hkv
        have hpre2 : keyStartsWith kv.1 (makePrefix d' t' ++ [':']) = true :=
          (List.mem_filter.mp hkv).2
        exact hpq (halias kv hkvmem d' t' ht' (he ▸ hkeypC) hpre2)
      have hnodels : ∀ kv ∈ kvScan st.events (makePrefix d' t' ++ [':']),
          kv.1 ∉ pre.map Prod.fst := by
        intro kv hkv hmem
        obtain ⟨kv', hkv', hk'⟩ := List.mem_map.mp hmem
        have hkv'scan : kv' ∈ kvScan st.events (makePrefix d t ++ [':']) := by
          rw [hdec]
          exact List.mem_append_left _ hkv'
        have hkv'mem : kv' ∈ st.events := List.mem_of_mem_filter hkv'scan
        have hkveq : kv' = kv := mem_eq_of_nodup_keys hnd hkv'mem
          (List.mem_of_mem_filter hkv) hk'
        subst hkveq
        have hpre1 : keyStartsWith kv'.1 (makePrefix d t ++ [':']) = true :=
          (List.mem_filter.mp hkv'scan).2
        have hpre2 : keyStartsWith kv'.1 (makePrefix d' t' ++ [':']) = true :=
          (List.mem_filter.mp hkv).2
        exact hpq (halias kv' hkv'mem d' t' ht' hpre1 hpre2)
      have hmapid : (kvScan st.events (makePrefix d' t' ++ [':'])).map
          (fun kv => if kv.1 = key then
            (key, ((ses.map (eventOfSer now)).drop (limit - totalLen pre)).map
              serEvent)
            else kv)
          = kvScan st.events (makePrefix d' t' ++ [':']) := by
        have hp : ∀ kv ∈ kvScan st.events (makePrefix d' t' ++ [':']),
            (if kv.1 = key then
              (key, ((ses.map (eventOfSer now)).drop (limit - totalLen pre)).map
                serEvent)
              else kv) = kv := by
          intro kv hkv
          simp [hnokey kv hkv]
        calc (kvScan st.events (makePrefix d' t' ++ [':'])).map _
            = (kvScan st.events (makePrefix d' t' ++ [':'])).map id :=
              List.map_congr_left hp
          _ = _ := List.map_id _
      rw [hmapid]
      have hfid : (kvScan st.events (makePrefix d' t' ++ [':'])).filter
          (fun kv => decide (kv.1 ∉ pre.map Prod.fst))
          = kvScan st.events (makePrefix d' t' ++ [':']) := by
        rw [List.filter_eq_self]
        intro kv hkv
        simp only [decide_eq_true_eq]
        exact hnodels kv hkv
      rw [hfid]
      have hr := hinv d' t' ht'
      rw [reachableCount_eq] at hr
      exact hr

/-- **C4 (amended).** For every `(destination, table)` pair with a
separator-free table name, the metadata counter under `"count:dest:table"`
equals the number of events reachable under the pair's `"dest:table:"` prefix,
as an invariant of the store's operations: it is preserved by every `push` of a
separator-free table under a fresh timestamped key, and by every `pop_batch` of
a separator-free table on a well-formed store of canonical keys in which no key
matched by the separator-less scan prefix `"dest:table"` escapes the
with-separator prefix `"dest:table:"`.  Without that last scan-scope
restriction the invariant is violated by an actual `push`/`pop_batch` sequence
(see `C4_counterexample`), because `pop_batch` scans `"dest:table"` without the
trailing separator and so consumes a sibling table's entries while rewriting
only the popped pair's counter. -/
theorem C4_count_invariant_amended :
    (∀ (st : DlqState) (d : Int) (t : String) (ts uuid : List Char)
       (events : List Event), ':' ∉ t.data →
       mkEventKey d t ts uuid ∉ st.events.map Prod.fst →
       countInvariantCF st →
       countInvariantCF (DlqStore.push st d t ts uuid events))
    ∧ (∀ (st : DlqState) (now d : Int) (t : String) (limit : Nat),
       st.WF → ':' ∉ t.data →
       (∀ kv ∈ st.events, keyStartsWith kv.1 (makePrefix d t) = true →
         keyStartsWith kv.1 (makePrefix d t ++ [':']) = true) →
       (∀ kv ∈ st.events, ∃ (d0 : Int) (t0 : String) (r : List Char),
         ':' ∉ t0.data ∧ kv.1 = makePrefix d0 t0 ++ ':' :: r) →
       countInvariantCF st →
       countInvariantCF (DlqStore.popBatch st now d t limit).2) :=
  ⟨fun st d t ts uuid events ht hfresh hinv =>
     push_preserves_countInvariant st d t ts uuid events ht hfresh hinv,
   fun st now d t limit hwf ht hscope hcanon hinv =>
     popBatch_preserves_countInvariant st now d t limit hwf ht hscope hcanon hinv⟩

/-- The amended C4 invariant at concrete inputs: a push onto the empty store
and a pop of the resulting singleton store both leave the invariant intact. -/
theorem C4_count_invariant_amended_witness :
    countInvariantCF
      (DlqStore.push DlqState.empty 1 "a" ['1'] ['u'] [.insert 10 [] 0 0])
    ∧ countInvariantCF
      (DlqStore.popBatch
        (DlqStore.push DlqState.empty 1 "a" ['1'] ['u'] [.insert 10 [] 0 0])
        0 1 "a" 5).2 := by
  have hempty : countInvariantCF DlqState.empty := fun d t _ => rfl
  have hpush : countInvariantCF
      (DlqStore.push DlqState.empty 1 "a" ['1'] ['u'] [.insert 10 [] 0 0]) :=
    C4_count_invariant_amended.1 DlqState.empty 1 "a" ['1'] ['u']
      [.insert 10 [] 0 0] (by decide) (by decide) hempty
  refine ⟨hpush, C4_count_invariant_amended.2 _ 0 1 "a" 5 ⟨by decide, by decide⟩
    (by decide) (by decide) ?_ hpush⟩
  intro kv hkv
  have hev : (DlqStore.push DlqState.empty 1 "a" ['1'] ['u']
      [.insert 10 [] 0 0]).events
      = [(mkEventKey 1 "a" ['1'] ['u'], [serEvent (.insert 10 [] 0 0)])] := by
    decide
  rw [hev] at hkv
  rcases List.mem_singleton.mp hkv with h
  rw [h]
  exact ⟨1, "a", ['1'] ++ ':' :: ['u'], by decide, rfl⟩

end Rosetta
